import Mathlib

set_option autoImplicit false
set_option maxHeartbeats 1600000
set_option maxRecDepth 4000

/-!
Verification of the reference-rewriting engine of MedCalcEHR
(src/transform_fhir.py) against its natural-language specification.

The Python functions operating on JSON data are shallowly embedded:
JSON values become the mutual inductive type J / JArr / JObj below
(association order models Python dict insertion order), in-place dict
mutation becomes functional update, the random `uuid.uuid4()` generator
becomes an explicit supply `u : Nat -> String` consumed left to right,
the stderr diagnostic channel becomes the returned list of unresolved
reference strings, and Python runtime errors (attribute errors on
non-dict values, and `str()` applied to containers, which is outside the
JSON fragment modelled here) become `Option.none`.

Whitespace in `str.strip()` and in the regex class `\s` is modelled by
the ASCII whitespace characters; the inputs of interest contain no
non-ASCII whitespace.  `REF_RE.match` is modelled by `refMatch`; since
every candidate handed to it by `map_reference` has already been
whitespace-collapsed, the Python `$`-before-final-newline subtlety is
unreachable and exact end anchoring is faithful.
-/

namespace MedCalcEHR

/-! Field-name and string literals used by transform_fhir.py. -/

def refKey : String := "reference"

def entryKey : String := "entry"

def resourceKey : String := "resource"

def fullUrlKey : String := "fullUrl"

def genKey : String := "_generated_uuid"

def idKey : String := "id"

def identifierKey : String := "identifier"

def rtypeKey : String := "resourceType"

def systemKey : String := "system"

def valueKey : String := "value"

def URN_SYSTEM : String := "urn:ietf:rfc:3986"

/-- URN_PREFIX in the source. -/
def URN_HEAD : String := "urn:uuid:"

def httpHead : String := "http://"

def httpsHead : String := "https://"

/-- to_urn from the source. -/
def to_urn (u : String) : String := URN_HEAD ++ u

/-! ## The JSON value model -/

mutual
inductive J : Type where
  | null : J
  | bool : Bool → J
  | num : Int → J
  | str : String → J
  | arr : JArr → J
  | obj : JObj → J

inductive JArr : Type where
  | nil : JArr
  | cons : J → JArr → JArr

inductive JObj : Type where
  | nil : JObj
  | cons : String → J → JObj → JObj
end

/-- Lookup of a key in a mapping (Python `d.get(k)` / `d[k]`). -/
def dget? : JObj → String → Option J
  | .nil, _ => none
  | .cons k v tl, key => if k = key then some v else dget? tl key

/-- Assignment `d[k] = v`: replace in place if the key exists, else append
at the end, matching Python dict insertion-order semantics. -/
def setKey : JObj → String → J → JObj
  | .nil, key, v => .cons key v .nil
  | .cons k w tl, key, v => if k = key then .cons k v tl else .cons k w (setKey tl key v)

/-- Deletion `del d[k]`.  Python dicts have unique keys; on association
lists with duplicated keys (not representable as Python dicts) every
occurrence is removed. -/
def delKey : JObj → String → JObj
  | .nil, _ => .nil
  | .cons k w tl, key => if k = key then delKey tl key else .cons k w (delKey tl key)

/-- Positional lookup in a sequence. -/
def aget? : JArr → Nat → Option J
  | .nil, _ => none
  | .cons x _, 0 => some x
  | .cons _ tl, n+1 => aget? tl n

/-- `list.append` (at the end). -/
def snocA : JArr → J → JArr
  | .nil, v => .cons v .nil
  | .cons x tl, v => .cons x (snocA tl v)

def anyA (p : J → Bool) : JArr → Bool
  | .nil => false
  | .cons x tl => p x || anyA p tl

def allA (p : J → Bool) : JArr → Bool
  | .nil => true
  | .cons x tl => p x && allA p tl

def asObj : J → Option JObj
  | .obj o => some o
  | _ => none

/-- Python truthiness of a JSON value. -/
def truthy : J → Bool
  | .null => false
  | .bool b => b
  | .num n => n != 0
  | .str s => s != ""
  | .arr a => match a with | .nil => false | _ => true
  | .obj o => match o with | .nil => false | _ => true

/-- Python `str()` on the scalar JSON fragment; `str()` of containers
(whose repr syntax is outside the JSON model) is not modelled. -/
def pyStr? : J → Option String
  | .str s => some s
  | .num n => some (toString n)
  | .bool b => some (if b then "True" else "False")
  | .null => some ("None")
  | _ => none

/-! ## String utilities (Python str methods and the regexes) -/

/-- ASCII whitespace, as recognized by Python str.strip and regex \s. -/
def pyIsSpace (c : Char) : Bool :=
  c = ' ' || c = '\t' || c = '\n' || c = '\r' || c = '\x0b' || c = '\x0c'

/-- The quote characters stripped by strip of a double and a single quote. -/
def quoteCh (c : Char) : Bool := c = '"' || c = Char.ofNat 39

/-- Remove leading and trailing characters satisfying p (Python str.strip). -/
def stripEndsL (p : Char → Bool) (l : List Char) : List Char :=
  ((l.dropWhile p).reverse.dropWhile p).reverse

/-- Python `s.strip()` (whitespace only). -/
def pyStripWS (s : String) : String := String.mk (stripEndsL pyIsSpace s.data)

/-- Python `s.strip().strip('"\'')` as used by the sanitizer. -/
def pyTrim (s : String) : String :=
  String.mk (stripEndsL quoteCh (stripEndsL pyIsSpace s.data))

/-- Python `s.startswith(pre)`. -/
def pyStartsWith (s pre : String) : Bool := pre.data.isPrefixOf s.data

/-- Replace each maximal run of whitespace by a single hyphen
(re.sub of one or more whitespace characters with a hyphen).  The flag
records whether we are inside a whitespace run. -/
def collapseAux : Bool → List Char → List Char
  | _, [] => []
  | inRun, c :: rest =>
    if pyIsSpace c then
      if inRun then collapseAux true rest else '-' :: collapseAux true rest
    else c :: collapseAux false rest

/-- sanitize_ref_string from the source. -/
def sanitize_ref_string (s : String) : String :=
  let s2 := pyTrim s
  if pyStartsWith s2 URN_HEAD || pyStartsWith s2 ("#") then s2
  else String.mk (collapseAux false s2.data)

/-- The id character class of REF_RE: letters, digits, hyphen, dot. -/
def idChar (c : Char) : Bool := c.isAlphanum || c = '-' || c = '.'

/-- Group 1 of REF_RE: a letter followed by one or more alphanumerics. -/
def kindOkL : List Char → Bool
  | [] => false
  | c :: rest => c.isAlpha && !rest.isEmpty && rest.all (fun d => d.isAlphanum)

/-- Group 2 of REF_RE: 1 to 64 characters from the id class. -/
def idOkL (l : List Char) : Bool :=
  decide (1 ≤ l.length) && decide (l.length ≤ 64) && l.all idChar

/-- Split a character list at every slash (no character class of REF_RE
admits a slash, so slashes fully determine the decomposition the regex
engine finds). -/
def splitSlash : List Char → List (List Char)
  | [] => [[]]
  | c :: rest =>
    match splitSlash rest with
    | [] => [[]]
    | g :: gs => if c = '/' then [] :: g :: gs else (c :: g) :: gs

/-- The anchored tail `Kind/id` of REF_RE, on a whole string. -/
def refTailMatch (l : List Char) : Option (String × String) :=
  match splitSlash l with
  | [g1, g2] => if kindOkL g1 && idOkL g2 then some (String.mk g1, String.mk g2) else none
  | _ => none

/-- REF_RE after an absolute base `scheme://seg1/seg2/` has been
consumed: two nonempty slash-free segments then `Kind/id`. -/
def refBaseMatch (l : List Char) : Option (String × String) :=
  match splitSlash l with
  | [s1, s2, g1, g2] =>
    if !s1.isEmpty && !s2.isEmpty && kindOkL g1 && idOkL g2 then
      some (String.mk g1, String.mk g2)
    else none
  | _ => none

/-- REF_RE.match on a candidate string, returning the two captured
groups.  The greedy optional base is tried first; if it fails the
engine retries without it (on such strings the retry always fails,
since the scheme's colon fits no class, but the fallthrough is kept). -/
def refMatch (s : String) : Option (String × String) :=
  let withBase :=
    if pyStartsWith s httpsHead then refBaseMatch (s.data.drop 8)
    else if pyStartsWith s httpHead then refBaseMatch (s.data.drop 7)
    else none
  match withBase with
  | some r => some r
  | none => refTailMatch s.data

/-! ## The lookup dictionaries -/

/-- Python dict keyed by strings: assignment replaces in place. -/
def dins (d : List (String × String)) (k v : String) : List (String × String) :=
  match d with
  | [] => [(k, v)]
  | (k0, v0) :: tl => if k0 = k then (k0, v) :: tl else (k0, v0) :: dins tl k v

def dfind? (d : List (String × String)) (k : String) : Option String :=
  match d with
  | [] => none
  | (k0, v0) :: tl => if k0 = k then some v0 else dfind? tl k

/-- The (resourceType, id)-keyed dict by_type_id (built and returned by
collect_uuid_map, unused by the rewriting passes). -/
def dinsT (d : List ((String × String) × String)) (k : String × String) (v : String) :
    List ((String × String) × String) :=
  match d with
  | [] => [(k, v)]
  | (k0, v0) :: tl => if k0 = k then (k0, v) :: tl else (k0, v0) :: dinsT tl k v

/-! ## map_reference and add_identifier -/

/-- map_reference from the source. -/
def map_reference (ref : String) (by_fullurl by_typeid_str : List (String × String)) :
    Option String :=
  let candidate := sanitize_ref_string ref
  if pyStartsWith candidate URN_HEAD || pyStartsWith candidate ("#") then some candidate
  else
    match dfind? by_fullurl candidate with
    | some v => some v
    | none =>
      match refMatch candidate with
      | some g => dfind? by_typeid_str (g.1 ++ "/" ++ g.2)
      | none => none

/-- The identifier entry added by add_identifier. -/
def identJ (urn_value : String) : J :=
  .obj (.cons systemKey (.str URN_SYSTEM) (.cons valueKey (.str urn_value) .nil))

/-- The duplicate guard of add_identifier: an element that is a mapping
whose system is URN_SYSTEM and whose value is the given urn. -/
def isUrnIdent (urn_value : String) : J → Bool
  | .obj o =>
    (match dget? o systemKey with | some (.str s) => s = URN_SYSTEM | _ => false)
    && (match dget? o valueKey with | some (.str v) => v = urn_value | _ => false)
  | _ => false

/-- add_identifier from the source (functional: returns the updated
resource mapping). -/
def add_identifier (resource : JObj) (urn_value : String) : JObj :=
  match dget? resource identifierKey with
  | some (.arr l) =>
    if anyA (isUrnIdent urn_value) l then resource
    else setKey resource identifierKey (.arr (snocA l (identJ urn_value)))
  | some (.obj o) =>
    setKey resource identifierKey (.arr (.cons (.obj o) (.cons (identJ urn_value) .nil)))
  | some _ => setKey resource identifierKey (.arr (.cons (identJ urn_value) .nil))
  | none => setKey resource identifierKey (.arr (.cons (identJ urn_value) .nil))

/-! ## rewrite_references -/

/-- Insert into the unresolved set (Python set.add; insertion order is
kept, only membership matters). -/
def addUnk (unk : List String) (s : String) : List String :=
  if s ∈ unk then unk else unk ++ [s]

mutual
/-- rewrite_references from the source: rewrite every string stored
under the reference key that map_reference can map, track the rest. -/
def rewrite_references (fu ti : List (String × String)) : J → List String → J × List String
  | .obj kvs, unk =>
    let r := rewriteObj fu ti kvs unk
    (.obj r.1, r.2)
  | .arr xs, unk =>
    let r := rewriteArr fu ti xs unk
    (.arr r.1, r.2)
  | v, unk => (v, unk)

def rewriteObj (fu ti : List (String × String)) : JObj → List String → JObj × List String
  | .nil, unk => (.nil, unk)
  | .cons k v tl, unk =>
    if k = refKey then
      match v with
      | .str s =>
        let step : J × List String :=
          match map_reference s fu ti with
          | some m => (.str m, unk)
          | none =>
            (.str s,
             if pyStartsWith s URN_HEAD || pyStartsWith s ("#") then unk else addUnk unk s)
        let r := rewriteObj fu ti tl step.2
        (.cons k step.1 r.1, r.2)
      | v' =>
        let rv := rewrite_references fu ti v' unk
        let r := rewriteObj fu ti tl rv.2
        (.cons k rv.1 r.1, r.2)
    else
      let rv := rewrite_references fu ti v unk
      let r := rewriteObj fu ti tl rv.2
      (.cons k rv.1 r.1, r.2)

def rewriteArr (fu ti : List (String × String)) : JArr → List String → JArr × List String
  | .nil, unk => (.nil, unk)
  | .cons x tl, unk =>
    let rx := rewrite_references fu ti x unk
    let r := rewriteArr fu ti tl rx.2
    (.cons rx.1 r.1, r.2)
end

/-! ## collect_uuid_map, the second pass, and transform_bundle -/

/-- collect_uuid_map from the source.  `u` is the uuid supply and `n`
the number of uuids generated so far; returns the three indices, the
entry list with the stashed `_generated_uuid` keys, and the new counter. -/
def collect_uuid_map (u : Nat → String) :
    Nat → JArr → List (String × String) → List ((String × String) × String) →
    List (String × String) →
    Option (List (String × String) × List ((String × String) × String) ×
            List (String × String) × JArr × Nat)
  | n, .nil, fu, tid, tis => some (fu, tid, tis, .nil, n)
  | n, .cons e rest, fu, tid, tis => do
    let eo ← asObj e
    let res := (dget? eo resourceKey).getD (.obj .nil)
    let ro ← asObj res
    let rtype := dget? ro rtypeKey
    let old_id := dget? ro idKey
    let urn := to_urn (u n)
    let fu1 :=
      match dget? eo fullUrlKey with
      | some (.str fs) => dins fu (pyStripWS fs) urn
      | _ => fu
    let p ← (match rtype, old_id with
      | some rt, some (.str oid) =>
        if truthy rt then
          match pyStr? rt with
          | some rs => some (dinsT tid (rs, oid) urn, dins tis (rs ++ "/" ++ oid) urn)
          | none => none
        else some (tid, tis)
      | _, _ => some (tid, tis))
    let eo1 :=
      match dget? eo genKey with
      | none => setKey eo genKey (.str (u n))
      | some _ => eo
    let r ← collect_uuid_map u (n+1) rest fu1 p.1 p.2
    some (r.1, r.2.1, r.2.2.1, .cons (.obj eo1) r.2.2.2.1, r.2.2.2.2)

/-- The per-entry loop of pass 2 of transform_bundle (lines 219-244):
set fullUrl, resource id and identifier, rewrite references inside the
resource, and drop the stashed helper key.  The resource mapping is
read before mutation (an absent resource yields a fresh mapping whose
updates are discarded, exactly as in the source). -/
def processEntries (u : Nat → String) (fu tis : List (String × String)) :
    Nat → JArr → List String → Option (JArr × Nat × List String)
  | n, .nil, unk => some (.nil, n, unk)
  | n, .cons e rest, unk => do
    let eo ← asObj e
    let resOpt := dget? eo resourceKey
    let res := resOpt.getD (.obj .nil)
    -- line 221 reads res.get("resourceType"), requiring a mapping
    let ro ← asObj res
    let nu_n1 : J × Nat :=
      match dget? eo genKey with
      | some v => if truthy v then (v, n) else (.str (u n), n + 1)
      | none => (.str (u n), n + 1)
    let us ← pyStr? nu_n1.1
    let urn := to_urn us
    let eo1 := setKey eo fullUrlKey (.str urn)
    let ro2 := add_identifier (setKey ro idKey nu_n1.1) urn
    let rw := rewriteObj fu tis ro2 unk
    let eo2 :=
      match resOpt with
      | some _ => setKey eo1 resourceKey (.obj rw.1)
      | none => eo1
    let eo3 := delKey eo2 genKey
    let r ← processEntries u fu tis nu_n1.2 rest rw.2
    some (.cons (.obj eo3) r.1, r.2.1, r.2.2)

/-- Lines 198-212 of the source: give the bundle itself a new id and
identifier. -/
def bundleSelfId (u0 : String) (bo : JObj) : JObj :=
  let bo1 := setKey bo idKey (.str u0)
  let bident := identJ (to_urn u0)
  match dget? bo1 identifierKey with
  | some (.obj o) => setKey bo1 identifierKey (.arr (.cons (.obj o) (.cons bident .nil)))
  | some (.arr l) => setKey bo1 identifierKey (.arr (snocA l bident))
  | some _ => setKey bo1 identifierKey (.arr (.cons bident .nil))
  | none => setKey bo1 identifierKey bident

/-- `bundle.get("entry", [])` followed by iteration: `some (some l)`
when the value is a list (mutations are written back), `some none` when
iteration visits nothing and nothing is written back (key absent, empty
string, empty mapping), `none` when Python would raise while iterating
(non-iterable value, or elements that are not mappings are reached). -/
def entriesOf (bo : JObj) : Option (Option JArr) :=
  match dget? bo entryKey with
  | none => some none
  | some (.arr l) => some (some l)
  | some (.str s) => if s = "" then some none else none
  | some (.obj o) => (match o with | .nil => some none | _ => none)
  | some _ => none

/-- transform_bundle from the source.  Returns the transformed bundle
and the unresolved-reference set that the reporter prints to stderr. -/
def transform_bundle (u : Nat → String) (bundle : J) : Option (J × List String) := do
  let bo ← asObj bundle
  let bo2 := bundleSelfId (u 0) bo
  let ent ← entriesOf bo2
  let es := match ent with | some l => l | none => JArr.nil
  let c ← collect_uuid_map u 1 es [] [] []
  let bo3 := match ent with | some _ => setKey bo2 entryKey (.arr c.2.2.2.1) | none => bo2
  let p ← processEntries u c.1 c.2.2.1 c.2.2.2.2 c.2.2.2.1 []
  let bo4 := match ent with | some _ => setKey bo3 entryKey (.arr p.1) | none => bo3
  let rw := rewriteObj c.1 c.2.2.1 bo4 p.2.2
  some (.obj rw.1, rw.2)

/-! ## A pure description of the rewriting pass

The unresolved-set threading of rewrite_references does not influence
the rewritten value; rewritePureJ computes the value component alone
and is proved equal to the first component of rewrite_references. -/

/-- The value a single reference string is rewritten to. -/
def rewriteVal (fu ti : List (String × String)) (s : String) : String :=
  match map_reference s fu ti with
  | some m => m
  | none => s

mutual
def rewritePureJ (fu ti : List (String × String)) : J → J
  | .obj kvs => .obj (rewritePObj fu ti kvs)
  | .arr xs => .arr (rewritePArr fu ti xs)
  | v => v

def rewritePObj (fu ti : List (String × String)) : JObj → JObj
  | .nil => .nil
  | .cons k v tl =>
    if k = refKey then
      match v with
      | .str s => .cons k (.str (rewriteVal fu ti s)) (rewritePObj fu ti tl)
      | v' => .cons k (rewritePureJ fu ti v') (rewritePObj fu ti tl)
    else .cons k (rewritePureJ fu ti v) (rewritePObj fu ti tl)

def rewritePArr (fu ti : List (String × String)) : JArr → JArr
  | .nil => .nil
  | .cons x tl => .cons (rewritePureJ fu ti x) (rewritePArr fu ti tl)
end

/-- How rewriting acts on the value stored under a given key. -/
def rewriteAtKey (fu ti : List (String × String)) (k : String) (v : J) : J :=
  if k = refKey then
    match v with
    | .str s => .str (rewriteVal fu ti s)
    | v' => rewritePureJ fu ti v'
  else rewritePureJ fu ti v

/-! ## Access paths into a JSON tree -/

inductive PathElem : Type where
  | key : String → PathElem
  | idx : Nat → PathElem

/-- The immediate child of a JSON value selected by one path element. -/
def childAt : J → PathElem → Option J
  | .obj o, .key k => dget? o k
  | .arr a, .idx i => aget? a i
  | _, _ => none

def getPath : J → List PathElem → Option J
  | j, [] => some j
  | j, e :: p => (childAt j e).bind (fun v => getPath v p)

/-! ## The unresolved set only grows, and collects unresolved references -/

/-- A reference string the rewriter cannot map and will record. -/
def unresolvedAt (fu ti : List (String × String)) (s : String) : Prop :=
  map_reference s fu ti = none ∧
  (pyStartsWith s URN_HEAD || pyStartsWith s ("#")) = false

/-- The unresolved set produced by one key/value pair of a mapping. -/
def stepUnk (fu ti : List (String × String)) (k : String) (v : J) (unk : List String) :
    List String :=
  if k = refKey then
    match v with
    | .str s =>
      (match map_reference s fu ti with
       | some _ => unk
       | none =>
         if pyStartsWith s URN_HEAD || pyStartsWith s ("#") then unk else addUnk unk s)
    | v' => (rewrite_references fu ti v' unk).2
  else (rewrite_references fu ti v unk).2

/-! ## Erasing reference values: the frame of the rewriter -/

mutual
/-- Replace every string stored under the reference key by null; two
values with equal erasures agree everywhere except at rewritable
reference fields. -/
def eraseRefs : J → J
  | .obj kvs => .obj (eraseRefsObj kvs)
  | .arr xs => .arr (eraseRefsArr xs)
  | v => v

def eraseRefsObj : JObj → JObj
  | .nil => .nil
  | .cons k v tl =>
    if k = refKey then
      match v with
      | .str _ => .cons k .null (eraseRefsObj tl)
      | v' => .cons k (eraseRefs v') (eraseRefsObj tl)
    else .cons k (eraseRefs v) (eraseRefsObj tl)

def eraseRefsArr : JArr → JArr
  | .nil => .nil
  | .cons x tl => .cons (eraseRefs x) (eraseRefsArr tl)
end

/-! ## Pure characterization of the assignment pass and of pass 2 -/

/-- The `ResourceType/id` key an entry registers in by_typeid_str, when
any (mirrors lines 124-126 of the source). -/
def regKeyOf (e : J) : Option String :=
  match e with
  | .obj eo =>
    (match (dget? eo resourceKey).getD (.obj .nil) with
     | .obj ro =>
       (match dget? ro rtypeKey, dget? ro idKey with
        | some rt, some (.str oid) =>
          if truthy rt then (pyStr? rt).map (fun rs => rs ++ "/" ++ oid) else none
        | _, _ => none)
     | _ => none)
  | _ => none

/-- The stripped prior locator an entry registers in by_fullurl, when
any (mirrors lines 122-123 of the source). -/
def fuKeyOf (e : J) : Option String :=
  match e with
  | .obj eo =>
    (match dget? eo fullUrlKey with
     | some (.str fs) => some (pyStripWS fs)
     | _ => none)
  | _ => none

def stepTisB (u : Nat → String) (n : Nat) (e : J) (tis : List (String × String)) :
    List (String × String) :=
  match regKeyOf e with
  | some k => dins tis k (to_urn (u n))
  | none => tis

def stepFuB (u : Nat → String) (n : Nat) (e : J) (fu : List (String × String)) :
    List (String × String) :=
  match fuKeyOf e with
  | some k => dins fu k (to_urn (u n))
  | none => fu

/-- by_typeid_str as built by the assignment pass. -/
def buildTis (u : Nat → String) : Nat → JArr → List (String × String) → List (String × String)
  | _, .nil, tis => tis
  | n, .cons e rest, tis => buildTis u (n+1) rest (stepTisB u n e tis)

/-- by_fullurl as built by the assignment pass. -/
def buildFu (u : Nat → String) : Nat → JArr → List (String × String) → List (String × String)
  | _, .nil, fu => fu
  | n, .cons e rest, fu => buildFu u (n+1) rest (stepFuB u n e fu)

/-- The setdefault stash of the generated uuid on one entry. -/
def stash1 (u : Nat → String) (n : Nat) (e : J) : J :=
  match e with
  | .obj eo =>
    (match dget? eo genKey with
     | none => .obj (setKey eo genKey (.str (u n)))
     | some _ => e)
  | _ => e

def stashA (u : Nat → String) : Nat → JArr → JArr
  | _, .nil => .nil
  | n, .cons e rest => .cons (stash1 u n e) (stashA u (n+1) rest)

/-- Well-formed entry: a mapping without a pre-existing transient stash
key, whose resource (if present) is a mapping with a string (or absent)
resourceType. -/
def entryWFb (e : J) : Bool :=
  match e with
  | .obj eo =>
    (dget? eo genKey).isNone &&
    (match dget? eo resourceKey with
     | none => true
     | some (.obj ro) =>
       (match dget? ro rtypeKey with
        | none => true
        | some (.str _) => true
        | some _ => false)
     | some _ => false)
  | _ => false

/-- Well-formed bundle: a mapping whose entry sequence (if present) is a
sequence of well-formed entries. -/
def bundleWFb (b : J) : Bool :=
  match b with
  | .obj bo =>
    (match dget? bo entryKey with
     | none => true
     | some (.arr es) => allA entryWFb es
     | some _ => false)
  | _ => false

/-- An entry as pass 2 expects it after the assignment pass: carrying a
truthy stringable stash, with a mapping (or absent) resource. -/
def stashedWFb (e : J) : Bool :=
  match e with
  | .obj eo =>
    (match dget? eo genKey with
     | some v => truthy v && (pyStr? v).isSome
     | none => false) &&
    (match dget? eo resourceKey with
     | none => true
     | some (.obj _) => true
     | some _ => false)
  | _ => false

/-- A supply of identifier strings as uuid.uuid4 produces them: nonempty
and free of whitespace and quote characters. -/
def GoodSupply (u : Nat → String) : Prop :=
  ∀ n, u n ≠ "" ∧ ∀ c ∈ (u n).data, pyIsSpace c = false ∧ quoteCh c = false

/-- What pass 2 makes of one stashed entry (the pure image of the loop
body of lines 219-244). -/
def proc1 (fu tis : List (String × String)) (e : J) : J :=
  match e with
  | .obj eo =>
    (match dget? eo genKey with
     | some nu =>
       (match pyStr? nu with
        | some us =>
          let urn := to_urn us
          let eo1 := setKey eo fullUrlKey (.str urn)
          let ro :=
            (match (dget? eo resourceKey).getD (.obj .nil) with
             | .obj ro => ro
             | _ => .nil)
          let ro2 := add_identifier (setKey ro idKey nu) urn
          let eo2 :=
            (match dget? eo resourceKey with
             | some _ => setKey eo1 resourceKey (.obj (rewritePObj fu tis ro2))
             | none => eo1)
          .obj (delKey eo2 genKey)
        | none => e)
     | none => e)
  | _ => e

def procA (fu tis : List (String × String)) : JArr → JArr
  | .nil => .nil
  | .cons e rest => .cons (proc1 fu tis e) (procA fu tis rest)

/-- The bundle as it stands after both per-entry passes, before the
final container-wide rewrite. -/
def bo4F (u : Nat → String) (bo : JObj) (es : JArr) : JObj :=
  setKey (bundleSelfId (u 0) bo) entryKey
    (.arr (procA (buildFu u 1 es []) (buildTis u 1 es []) (stashA u 1 es)))

/-- Drop the first n elements of a sequence. -/
def dropA : Nat → JArr → JArr
  | 0, a => a
  | _+1, .nil => .nil
  | n+1, .cons _ tl => dropA n tl

/-- Paths that survive the id/identifier rewriting of a record. -/
def headKeyOkB : List PathElem → Bool
  | .key k :: _ => !(k == idKey) && !(k == identifierKey)
  | _ => true

/-! ## Spec-side sanitizer pipeline (for the refinement claim C8) -/

/-- Step 1 of the spec's sanitizer description: trim surrounding
whitespace and enclosing quote characters. -/
def specTrim (s : String) : String :=
  String.mk (stripEndsL quoteCh (stripEndsL pyIsSpace s.data))

/-- Step 3 of the spec's sanitizer description: collapse each run of
whitespace characters into a single hyphen. -/
def specCollapse (s : String) : String := String.mk (collapseAux false s.data)

/-- The sanitizer as the spec words it: trim; if the result starts with
the canonical-encoding prefix or the local-pointer marker return it
unchanged; otherwise collapse whitespace runs into single hyphens. -/
def specSanitize (s : String) : String :=
  let t := specTrim s
  if pyStartsWith t URN_HEAD || pyStartsWith t ("#") then t
  else specCollapse t

/-! ## Concrete fixtures -/

def subjKey : String := "subject"

def mkResO (rt oid : String) (extra : JObj) : JObj :=
  .cons resourceKey (.obj (.cons rtypeKey (.str rt) (.cons idKey (.str oid) extra))) .nil

def subjRef (s : String) : JObj :=
  .cons subjKey (.obj (.cons refKey (.str s) .nil)) .nil

def obsEntry (s : String) : JObj :=
  mkResO ("Observation") ("zzz") (subjRef s)

def obsRes (s : String) : JObj :=
  .cons rtypeKey (.str ("Observation")) (.cons idKey (.str ("zzz")) (subjRef s))

def patEntry : J := .obj (mkResO ("Patient") ("123") .nil)

def patRes : JObj := .cons rtypeKey (.str ("Patient")) (.cons idKey (.str ("123")) .nil)

def cexU : Nat → String := fun n => String.mk (List.replicate n 'x')

def cb1e0 : JObj := .cons fullUrlKey (.str ("Patient/123")) (obsEntry ("Patient/123"))

def cb1es : JArr := .cons (.obj cb1e0) (.cons patEntry .nil)

def cb1o : JObj := .cons rtypeKey (.str ("Bundle")) (.cons entryKey (.arr cb1es) .nil)

def cb2e0 : JObj := .cons genKey (.str ("EVIL")) (mkResO ("Patient") ("1") .nil)

def cb2o : JObj := .cons entryKey (.arr (.cons (.obj cb2e0) .nil)) .nil

def cb3es : JArr :=
  .cons (.obj (obsEntry ("http://host/a/b/Patient/123"))) (.cons patEntry .nil)

def cb3o : JObj := .cons entryKey (.arr cb3es) .nil

def cb3unk : List String := ((transform_bundle cexU (.obj cb3o)).getD (.null, [])).2

def cb4o : JObj :=
  .cons entryKey (.arr (.cons (.obj (obsEntry ("urn:uuid:abc "))) .nil)) .nil

def wU : Nat → String := fun _ => "w"

def wEs1 : JArr := .cons (.obj (obsEntry ("Patient/123"))) (.cons patEntry .nil)

def wB1o : JObj := .cons entryKey (.arr wEs1) .nil

def wEsP : JArr := .cons patEntry .nil

def wB2o : JObj := .cons entryKey (.arr wEsP) .nil

def wEs4 : JArr := .cons (.obj (obsEntry ("#frag"))) .nil

def wB4o : JObj := .cons entryKey (.arr wEs4) .nil

def wEs5 : JArr := .cons (.obj (obsEntry ("Patient/999"))) .nil

def wB5o : JObj := .cons entryKey (.arr wEs5) .nil

def wB10o : JObj :=
  .cons entryKey
    (.arr (.cons (.obj (.cons genKey (.str ("z")) (mkResO ("Patient") ("1") .nil))) .nil))
    .nil

def wPair10 : J × List String := (transform_bundle wU (.obj wB10o)).getD (.null, [])

def wOut10 : J := wPair10.1

def wUnk10 : List String := wPair10.2

def wEo10 : JObj :=
  match getPath wOut10 [.key entryKey, .idx 0] with
  | some (.obj o) => o
  | _ => .nil

/-! ## Theorems -/

/-! ## Basic lemmas about the mapping and sequence operations -/

theorem dget?_setKey_self : ∀ (o : JObj) (k : String) (v : J), dget? (setKey o k v) k = some v
  | .nil, k, v => by simp [setKey, dget?]
  | .cons k0 w tl, k, v => by
    by_cases h : k0 = k
    · simp [setKey, dget?, h]
    · simp [setKey, dget?, h, dget?_setKey_self tl k v]

theorem dget?_setKey_ne :
    ∀ (o : JObj) (k k' : String) (v : J), k' ≠ k → dget? (setKey o k v) k' = dget? o k'
  | .nil, k, k', v, h => by simp [setKey, dget?, Ne.symm h]
  | .cons k0 w tl, k, k', v, h => by
    by_cases h0 : k0 = k
    · subst h0
      simp [setKey, dget?, Ne.symm h]
    · by_cases h1 : k0 = k'
      · simp [setKey, dget?, h0, h1, h]
      · simp [setKey, dget?, h0, h1, dget?_setKey_ne tl k k' v h]

theorem setKey_setKey : ∀ (o : JObj) (k : String) (a b : J),
    setKey (setKey o k a) k b = setKey o k b
  | .nil, k, a, b => by simp [setKey]
  | .cons k0 w tl, k, a, b => by
    by_cases h : k0 = k
    · simp [setKey, h]
    · simp [setKey, h, setKey_setKey tl k a b]

theorem dget?_delKey_self : ∀ (o : JObj) (k : String), dget? (delKey o k) k = none
  | .nil, k => by simp [delKey, dget?]
  | .cons k0 w tl, k => by
    by_cases h : k0 = k
    · simp [delKey, h, dget?_delKey_self tl k]
    · simp [delKey, dget?, h, dget?_delKey_self tl k]

theorem dget?_delKey_ne :
    ∀ (o : JObj) (k k' : String), k' ≠ k → dget? (delKey o k) k' = dget? o k'
  | .nil, k, k', h => by simp [delKey]
  | .cons k0 w tl, k, k', h => by
    by_cases h0 : k0 = k
    · subst h0
      simp [delKey, dget?, Ne.symm h, dget?_delKey_ne tl k0 k' h]
    · by_cases h1 : k0 = k'
      · simp [delKey, dget?, h0, h1, h]
      · simp [delKey, dget?, h0, h1, dget?_delKey_ne tl k k' h]

theorem dfind?_dins_self (k v : String) :
    ∀ (d : List (String × String)), dfind? (dins d k v) k = some v
  | [] => by simp [dins, dfind?]
  | (k0, v0) :: tl => by
    by_cases h : k0 = k
    · simp [dins, dfind?, h]
    · simp [dins, dfind?, h, dfind?_dins_self k v tl]

theorem dfind?_dins_ne (k k' v : String) (h : k' ≠ k) :
    ∀ (d : List (String × String)), dfind? (dins d k v) k' = dfind? d k'
  | [] => by simp [dins, dfind?, Ne.symm h]
  | (k0, v0) :: tl => by
    by_cases h0 : k0 = k
    · subst h0
      simp [dins, dfind?, Ne.symm h]
    · by_cases h1 : k0 = k'
      · simp [dins, dfind?, h0, h1, h]
      · simp [dins, dfind?, h0, h1, dfind?_dins_ne k k' v h tl]

theorem allA_aget {p : J → Bool} :
    ∀ {a : JArr} {i : Nat} {e : J}, allA p a = true → aget? a i = some e → p e = true
  | .cons x tl, 0, e, ha, he => by
    simp [aget?] at he
    simp [allA] at ha
    exact he ▸ ha.1
  | .cons x tl, i+1, e, ha, he => by
    simp [allA] at ha
    exact allA_aget ha.2 (by simpa [aget?] using he)

theorem anyA_snocA (p : J → Bool) (x : J) :
    ∀ (a : JArr), anyA p (snocA a x) = (anyA p a || p x)
  | .nil => by simp [snocA, anyA]
  | .cons y tl => by simp [snocA, anyA, anyA_snocA p x tl, Bool.or_assoc]

theorem mem_addUnk_self (unk : List String) (s : String) : s ∈ addUnk unk s := by
  by_cases h : s ∈ unk <;> simp [addUnk, h]

theorem subset_addUnk (unk : List String) (s : String) : unk ⊆ addUnk unk s := by
  by_cases h : s ∈ unk <;> intro x hx <;> simp [addUnk, h, hx]

/-! ## rewrite_references computes rewritePureJ on the value side -/

theorem rewritePObj_cons (fu ti : List (String × String)) (k : String) (v : J) (tl : JObj) :
    rewritePObj fu ti (.cons k v tl) = .cons k (rewriteAtKey fu ti k v) (rewritePObj fu ti tl) := by
  by_cases h : k = refKey
  · cases v <;> simp [rewritePObj, rewriteAtKey, h]
  · cases v <;> simp [rewritePObj, rewriteAtKey, h]

theorem dget?_rewritePObj (fu ti : List (String × String)) (k : String) :
    ∀ (o : JObj), dget? (rewritePObj fu ti o) k = (dget? o k).map (rewriteAtKey fu ti k)
  | .nil => by simp [rewritePObj, dget?]
  | .cons k0 v tl => by
    by_cases h : k0 = k
    · subst h
      simp [rewritePObj_cons, dget?]
    · simp [rewritePObj_cons, dget?, h, dget?_rewritePObj fu ti k tl]

theorem aget?_rewritePArr (fu ti : List (String × String)) :
    ∀ (a : JArr) (i : Nat),
      aget? (rewritePArr fu ti a) i = (aget? a i).map (rewritePureJ fu ti)
  | .nil, _ => by simp [rewritePArr, aget?]
  | .cons x tl, 0 => by simp [rewritePArr, aget?]
  | .cons x tl, i+1 => by simp [rewritePArr, aget?, aget?_rewritePArr fu ti tl i]

mutual
theorem rw_fst (fu ti : List (String × String)) :
    ∀ (j : J) (unk : List String), (rewrite_references fu ti j unk).1 = rewritePureJ fu ti j
  | .null, _ => rfl
  | .bool _, _ => rfl
  | .num _, _ => rfl
  | .str _, _ => rfl
  | .obj kvs, unk => by
    simp [rewrite_references, rewritePureJ, rwObj_fst fu ti kvs unk]
  | .arr xs, unk => by
    simp [rewrite_references, rewritePureJ, rwArr_fst fu ti xs unk]

theorem rwObj_fst (fu ti : List (String × String)) :
    ∀ (o : JObj) (unk : List String), (rewriteObj fu ti o unk).1 = rewritePObj fu ti o
  | .nil, _ => rfl
  | .cons k v tl, unk => by
    by_cases h : k = refKey
    · cases v with
      | str s =>
        cases hm : map_reference s fu ti <;>
          simp [rewriteObj, rewritePObj, h, hm, rewriteVal,
            rwObj_fst fu ti tl]
      | null => simp [rewriteObj, rewritePObj, h, rw_fst fu ti, rwObj_fst fu ti tl]
      | bool b => simp [rewriteObj, rewritePObj, h, rw_fst fu ti, rwObj_fst fu ti tl]
      | num n => simp [rewriteObj, rewritePObj, h, rw_fst fu ti, rwObj_fst fu ti tl]
      | arr a => simp [rewriteObj, rewritePObj, h, rw_fst fu ti, rwObj_fst fu ti tl]
      | obj oo => simp [rewriteObj, rewritePObj, h, rw_fst fu ti, rwObj_fst fu ti tl]
    · cases v <;>
        simp [rewriteObj, rewritePObj, h, rw_fst fu ti, rwObj_fst fu ti tl]

theorem rwArr_fst (fu ti : List (String × String)) :
    ∀ (a : JArr) (unk : List String), (rewriteArr fu ti a unk).1 = rewritePArr fu ti a
  | .nil, _ => rfl
  | .cons x tl, unk => by
    simp [rewriteArr, rewritePArr, rw_fst fu ti x unk, rwArr_fst fu ti tl]
end

/-! ## Paths through the pure rewrite -/

theorem childAt_rewrite_key (fu ti : List (String × String)) (j : J) (k : String) :
    childAt (rewritePureJ fu ti j) (.key k) = (childAt j (.key k)).map (rewriteAtKey fu ti k) := by
  cases j <;> simp [rewritePureJ, childAt, dget?_rewritePObj]

theorem childAt_rewrite_idx (fu ti : List (String × String)) (j : J) (i : Nat) :
    childAt (rewritePureJ fu ti j) (.idx i) = (childAt j (.idx i)).map (rewritePureJ fu ti) := by
  cases j <;> simp [rewritePureJ, childAt, aget?_rewritePArr]

theorem getPath_str_cons (s : String) (e : PathElem) (p : List PathElem) :
    getPath (.str s) (e :: p) = none := by
  cases e <;> simp [getPath, childAt]

theorem getPath_rewrite (fu ti : List (String × String)) (s : String) :
    ∀ (q : List PathElem) (j : J),
      getPath j (q ++ [.key refKey]) = some (.str s) →
      getPath (rewritePureJ fu ti j) (q ++ [.key refKey]) = some (.str (rewriteVal fu ti s))
  | [], j, hp => by
    simp only [List.nil_append, getPath, Option.bind_eq_some] at hp
    obtain ⟨v, hv, he⟩ := hp
    simp only [getPath, Option.some.injEq] at he
    subst he
    simp only [List.nil_append, getPath, childAt_rewrite_key, hv, Option.map_some',
      Option.some_bind]
    simp [rewriteAtKey, getPath]
  | e :: q, j, hp => by
    simp only [List.cons_append, getPath, Option.bind_eq_some] at hp
    obtain ⟨v, hv, he⟩ := hp
    cases e with
    | key k =>
      simp only [List.cons_append, getPath, childAt_rewrite_key, hv, Option.map_some,
        Option.some_bind]
      by_cases hk : k = refKey
      · cases v with
        | str s' =>
          exfalso
          cases q with
          | nil => simp [getPath_str_cons] at he
          | cons e' q' => simp [getPath_str_cons] at he
        | null => simpa [rewriteAtKey, hk] using getPath_rewrite fu ti s q _ he
        | bool b => simpa [rewriteAtKey, hk] using getPath_rewrite fu ti s q _ he
        | num n => simpa [rewriteAtKey, hk] using getPath_rewrite fu ti s q _ he
        | arr a => simpa [rewriteAtKey, hk] using getPath_rewrite fu ti s q _ he
        | obj o => simpa [rewriteAtKey, hk] using getPath_rewrite fu ti s q _ he
      · simpa [rewriteAtKey, hk] using getPath_rewrite fu ti s q _ he
    | idx i =>
      simp only [List.cons_append, getPath, childAt_rewrite_idx, hv, Option.map_some,
        Option.some_bind]
      exact getPath_rewrite fu ti s q _ he

theorem rw_snd_obj (fu ti : List (String × String)) (kvs : JObj) (unk : List String) :
    (rewrite_references fu ti (.obj kvs) unk).2 = (rewriteObj fu ti kvs unk).2 := by
  simp [rewrite_references]

theorem rw_snd_arr (fu ti : List (String × String)) (xs : JArr) (unk : List String) :
    (rewrite_references fu ti (.arr xs) unk).2 = (rewriteArr fu ti xs unk).2 := by
  simp [rewrite_references]

theorem rewriteObj_cons_snd (fu ti : List (String × String)) (k : String) (v : J)
    (tl : JObj) (unk : List String) :
    (rewriteObj fu ti (.cons k v tl) unk).2 =
      (rewriteObj fu ti tl (stepUnk fu ti k v unk)).2 := by
  by_cases hk : k = refKey
  · cases v with
    | str s =>
      cases hm : map_reference s fu ti with
      | some m => simp [rewriteObj, stepUnk, hk, hm]
      | none =>
        by_cases hpre : (pyStartsWith s URN_HEAD || pyStartsWith s ("#")) = true
        · simp [rewriteObj, stepUnk, hk, hm, hpre]
        · simp only [Bool.not_eq_true] at hpre
          simp [rewriteObj, stepUnk, hk, hm, hpre]
    | null => simp [rewriteObj, stepUnk, hk]
    | bool b => simp [rewriteObj, stepUnk, hk]
    | num n => simp [rewriteObj, stepUnk, hk]
    | arr a => simp [rewriteObj, stepUnk, hk]
    | obj oo => simp [rewriteObj, stepUnk, hk]
  · cases v <;> simp [rewriteObj, stepUnk, hk]

theorem rewriteArr_cons_snd (fu ti : List (String × String)) (x : J) (tl : JArr)
    (unk : List String) :
    (rewriteArr fu ti (.cons x tl) unk).2 =
      (rewriteArr fu ti tl ((rewrite_references fu ti x unk).2)).2 := by
  simp [rewriteArr]

mutual
theorem rw_unk_mono (fu ti : List (String × String)) :
    ∀ (j : J) (unk : List String), unk ⊆ (rewrite_references fu ti j unk).2
  | .null, unk => by simp [rewrite_references]
  | .bool _, unk => by simp [rewrite_references]
  | .num _, unk => by simp [rewrite_references]
  | .str _, unk => by simp [rewrite_references]
  | .obj kvs, unk => by
    rw [rw_snd_obj]
    exact rwObj_unk_mono fu ti kvs unk
  | .arr xs, unk => by
    rw [rw_snd_arr]
    exact rwArr_unk_mono fu ti xs unk

theorem rwObj_unk_mono (fu ti : List (String × String)) :
    ∀ (o : JObj) (unk : List String), unk ⊆ (rewriteObj fu ti o unk).2
  | .nil, unk => by simp [rewriteObj]
  | .cons k v tl, unk => by
    rw [rewriteObj_cons_snd]
    refine List.Subset.trans ?_ (rwObj_unk_mono fu ti tl (stepUnk fu ti k v unk))
    by_cases hk : k = refKey
    · cases v with
      | str s =>
        cases hm : map_reference s fu ti with
        | some m => simp [stepUnk, hk, hm]
        | none =>
          by_cases hpre : (pyStartsWith s URN_HEAD || pyStartsWith s ("#")) = true
          · simp [stepUnk, hk, hm, hpre]
          · simp only [Bool.not_eq_true] at hpre
            simpa [stepUnk, hk, hm, hpre] using subset_addUnk unk s
      | null => simpa [stepUnk, hk] using rw_unk_mono fu ti J.null unk
      | bool b => simpa [stepUnk, hk] using rw_unk_mono fu ti (J.bool b) unk
      | num n => simpa [stepUnk, hk] using rw_unk_mono fu ti (J.num n) unk
      | arr a => simpa [stepUnk, hk] using rw_unk_mono fu ti (J.arr a) unk
      | obj oo => simpa [stepUnk, hk] using rw_unk_mono fu ti (J.obj oo) unk
    · simpa [stepUnk, hk] using rw_unk_mono fu ti v unk

theorem rwArr_unk_mono (fu ti : List (String × String)) :
    ∀ (a : JArr) (unk : List String), unk ⊆ (rewriteArr fu ti a unk).2
  | .nil, unk => by simp [rewriteArr]
  | .cons x tl, unk => by
    rw [rewriteArr_cons_snd]
    exact List.Subset.trans (rw_unk_mono fu ti x unk)
      (rwArr_unk_mono fu ti tl ((rewrite_references fu ti x unk).2))
end

theorem mem_rwObj_here (fu ti : List (String × String)) (s : String)
    (h : unresolvedAt fu ti s) :
    ∀ (o : JObj) (unk : List String), dget? o refKey = some (.str s) →
      s ∈ (rewriteObj fu ti o unk).2
  | .cons k v tl, unk, hd => by
    rw [rewriteObj_cons_snd]
    by_cases hk : k = refKey
    · subst hk
      simp [dget?] at hd
      subst hd
      refine rwObj_unk_mono fu ti tl _ ?_
      simp [stepUnk, h.1, h.2, mem_addUnk_self]
    · simp only [dget?, if_neg hk] at hd
      exact mem_rwObj_here fu ti s h tl (stepUnk fu ti k v unk) hd

theorem mem_rwObj_inner (fu ti : List (String × String)) (s k : String) :
    ∀ (o : JObj) (v : J) (unk : List String), dget? o k = some v →
      (∀ u0 : List String, s ∈ (rewrite_references fu ti v u0).2) →
      s ∈ (rewriteObj fu ti o unk).2
  | .cons k0 w tl, v, unk, hd, hin => by
    rw [rewriteObj_cons_snd]
    by_cases h0 : k0 = k
    · subst h0
      simp [dget?] at hd
      subst hd
      refine rwObj_unk_mono fu ti tl _ ?_
      by_cases hk : k0 = refKey
      · cases w with
        | str s' =>
          exfalso
          have := hin []
          simp [rewrite_references] at this
        | null => simpa [stepUnk, hk] using hin unk
        | bool b => simpa [stepUnk, hk] using hin unk
        | num n => simpa [stepUnk, hk] using hin unk
        | arr a => simpa [stepUnk, hk] using hin unk
        | obj oo => simpa [stepUnk, hk] using hin unk
      · simpa [stepUnk, hk] using hin unk
    · simp only [dget?, if_neg h0] at hd
      exact mem_rwObj_inner fu ti s k tl v (stepUnk fu ti k0 w unk) hd hin

theorem mem_rwArr_inner (fu ti : List (String × String)) (s : String) :
    ∀ (i : Nat) (a : JArr) (v : J) (unk : List String), aget? a i = some v →
      (∀ u0 : List String, s ∈ (rewrite_references fu ti v u0).2) →
      s ∈ (rewriteArr fu ti a unk).2
  | 0, .cons x tl, v, unk, ha, hin => by
    rw [rewriteArr_cons_snd]
    simp only [aget?, Option.some.injEq] at ha
    subst ha
    exact rwArr_unk_mono fu ti tl _ (hin unk)
  | i+1, .cons x tl, v, unk, ha, hin => by
    rw [rewriteArr_cons_snd]
    simp only [aget?] at ha
    exact mem_rwArr_inner fu ti s i tl v _ ha hin

theorem mem_rw_of_path (fu ti : List (String × String)) (s : String)
    (h : unresolvedAt fu ti s) :
    ∀ (q : List PathElem) (j : J) (unk : List String),
      getPath j (q ++ [.key refKey]) = some (.str s) →
      s ∈ (rewrite_references fu ti j unk).2
  | [], j, unk, hp => by
    simp only [List.nil_append, getPath, Option.bind_eq_some] at hp
    obtain ⟨v, hv, he⟩ := hp
    simp only [getPath, Option.some.injEq] at he
    subst he
    cases j with
    | obj o =>
      rw [rw_snd_obj]
      exact mem_rwObj_here fu ti s h o unk (by simpa [childAt] using hv)
    | null => simp [childAt] at hv
    | bool b => simp [childAt] at hv
    | num n => simp [childAt] at hv
    | str s' => simp [childAt] at hv
    | arr a => simp [childAt] at hv
  | e :: q, j, unk, hp => by
    simp only [List.cons_append, getPath, Option.bind_eq_some] at hp
    obtain ⟨v, hv, he⟩ := hp
    cases e with
    | key k =>
      cases j with
      | obj o =>
        rw [rw_snd_obj]
        exact mem_rwObj_inner fu ti s k o v unk (by simpa [childAt] using hv)
          (fun u0 => mem_rw_of_path fu ti s h q v u0 he)
      | null => simp [childAt] at hv
      | bool b => simp [childAt] at hv
      | num n => simp [childAt] at hv
      | str s' => simp [childAt] at hv
      | arr a => simp [childAt] at hv
    | idx i =>
      cases j with
      | arr a =>
        rw [rw_snd_arr]
        exact mem_rwArr_inner fu ti s i a v unk (by simpa [childAt] using hv)
          (fun u0 => mem_rw_of_path fu ti s h q v u0 he)
      | null => simp [childAt] at hv
      | bool b => simp [childAt] at hv
      | num n => simp [childAt] at hv
      | str s' => simp [childAt] at hv
      | obj o => simp [childAt] at hv

mutual
theorem eraseRefs_rewritePure (fu ti : List (String × String)) :
    ∀ (j : J), eraseRefs (rewritePureJ fu ti j) = eraseRefs j
  | .null => rfl
  | .bool _ => rfl
  | .num _ => rfl
  | .str _ => rfl
  | .obj kvs => by
    simp [rewritePureJ, eraseRefs, eraseRefsObj_rewritePObj fu ti kvs]
  | .arr xs => by
    simp [rewritePureJ, eraseRefs, eraseRefsArr_rewritePArr fu ti xs]

theorem eraseRefsObj_rewritePObj (fu ti : List (String × String)) :
    ∀ (o : JObj), eraseRefsObj (rewritePObj fu ti o) = eraseRefsObj o
  | .nil => rfl
  | .cons k v tl => by
    by_cases hk : k = refKey
    · cases v with
      | str s => simp [rewritePObj, eraseRefsObj, hk, eraseRefsObj_rewritePObj fu ti tl]
      | null =>
        simp [rewritePObj, eraseRefsObj, rewritePureJ, hk, eraseRefsObj_rewritePObj fu ti tl]
      | bool b =>
        simp [rewritePObj, eraseRefsObj, rewritePureJ, hk, eraseRefsObj_rewritePObj fu ti tl]
      | num n =>
        simp [rewritePObj, eraseRefsObj, rewritePureJ, hk, eraseRefsObj_rewritePObj fu ti tl]
      | arr a =>
        simp [rewritePObj, eraseRefsObj, rewritePureJ, hk, eraseRefsObj_rewritePObj fu ti tl,
          eraseRefs, eraseRefsArr_rewritePArr fu ti a]
      | obj oo =>
        simp [rewritePObj, eraseRefsObj, rewritePureJ, hk, eraseRefsObj_rewritePObj fu ti tl,
          eraseRefs, eraseRefsObj_rewritePObj fu ti oo]
    · cases v with
      | str s => simp [rewritePObj, eraseRefsObj, rewritePureJ, hk, eraseRefsObj_rewritePObj fu ti tl]
      | null => simp [rewritePObj, eraseRefsObj, rewritePureJ, hk, eraseRefsObj_rewritePObj fu ti tl]
      | bool b => simp [rewritePObj, eraseRefsObj, rewritePureJ, hk, eraseRefsObj_rewritePObj fu ti tl]
      | num n => simp [rewritePObj, eraseRefsObj, rewritePureJ, hk, eraseRefsObj_rewritePObj fu ti tl]
      | arr a =>
        simp [rewritePObj, eraseRefsObj, rewritePureJ, hk, eraseRefsObj_rewritePObj fu ti tl,
          eraseRefs, eraseRefsArr_rewritePArr fu ti a]
      | obj oo =>
        simp [rewritePObj, eraseRefsObj, rewritePureJ, hk, eraseRefsObj_rewritePObj fu ti tl,
          eraseRefs, eraseRefsObj_rewritePObj fu ti oo]

theorem eraseRefsArr_rewritePArr (fu ti : List (String × String)) :
    ∀ (a : JArr), eraseRefsArr (rewritePArr fu ti a) = eraseRefsArr a
  | .nil => rfl
  | .cons x tl => by
    simp [rewritePArr, eraseRefsArr, eraseRefs_rewritePure fu ti x,
      eraseRefsArr_rewritePArr fu ti tl]
end

/-! ## Clean strings pass the sanitizer unchanged -/

theorem mkData : ∀ (s : String), String.mk s.data = s
  | ⟨_⟩ => rfl

theorem dropWhile_of_all_false (p : Char → Bool) :
    ∀ (l : List Char), (∀ c ∈ l, p c = false) → l.dropWhile p = l
  | [], _ => rfl
  | c :: t, h => by simp [List.dropWhile_cons, h c (by simp)]

theorem stripEndsL_noop (p : Char → Bool) (l : List Char)
    (h : ∀ c ∈ l, p c = false) : stripEndsL p l = l := by
  unfold stripEndsL
  rw [dropWhile_of_all_false p l h,
    dropWhile_of_all_false p l.reverse (fun c hc => h c (List.mem_reverse.mp hc)),
    List.reverse_reverse]

theorem collapseAux_of_no_space :
    ∀ (l : List Char), (∀ c ∈ l, pyIsSpace c = false) → collapseAux false l = l
  | [], _ => rfl
  | c :: t, h => by
    simp [collapseAux, h c (by simp),
      collapseAux_of_no_space t (fun d hd => h d (by simp [hd]))]

/-- A string with no whitespace and no quote characters is a fixed point
of the sanitizer. -/
theorem sanitize_of_clean (s : String)
    (h : ∀ c ∈ s.data, pyIsSpace c = false ∧ quoteCh c = false) :
    sanitize_ref_string s = s := by
  unfold sanitize_ref_string pyTrim
  rw [stripEndsL_noop pyIsSpace s.data (fun c hc => (h c hc).1),
    stripEndsL_noop quoteCh s.data (fun c hc => (h c hc).2), mkData]
  by_cases hc : (pyStartsWith s URN_HEAD || pyStartsWith s ("#")) = true
  · simp [hc]
  · simp only [Bool.not_eq_true] at hc
    simp [hc, collapseAux_of_no_space s.data (fun c hc2 => (h c hc2).1), mkData]

theorem isPrefixOf_append_self : ∀ (l t : List Char), l.isPrefixOf (l ++ t) = true
  | [], _ => by simp [List.isPrefixOf]
  | c :: l, t => by simp [List.isPrefixOf, isPrefixOf_append_self l t]

theorem urn_head_clean : ∀ c ∈ URN_HEAD.data, pyIsSpace c = false ∧ quoteCh c = false := by
  decide

theorem to_urn_clean (x : String) (hx : ∀ c ∈ x.data, pyIsSpace c = false ∧ quoteCh c = false) :
    ∀ c ∈ (to_urn x).data, pyIsSpace c = false ∧ quoteCh c = false := by
  intro c hc
  rw [to_urn, String.data_append] at hc
  rcases List.mem_append.mp hc with h | h
  · exact urn_head_clean c h
  · exact hx c h

theorem pyStartsWith_to_urn (x : String) : pyStartsWith (to_urn x) URN_HEAD = true := by
  unfold pyStartsWith to_urn
  rw [String.data_append]
  exact isPrefixOf_append_self URN_HEAD.data x.data

/-- map_reference leaves canonical urn encodings of clean identifiers
untouched: they sanitize to themselves and carry the canonical prefix. -/
theorem map_reference_urn (fu ti : List (String × String)) (x : String)
    (hx : ∀ c ∈ x.data, pyIsSpace c = false ∧ quoteCh c = false) :
    map_reference (to_urn x) fu ti = some (to_urn x) := by
  unfold map_reference
  rw [sanitize_of_clean (to_urn x) (to_urn_clean x hx)]
  simp [pyStartsWith_to_urn]

theorem rewriteVal_urn (fu ti : List (String × String)) (x : String)
    (hx : ∀ c ∈ x.data, pyIsSpace c = false ∧ quoteCh c = false) :
    rewriteVal fu ti (to_urn x) = to_urn x := by
  unfold rewriteVal
  rw [map_reference_urn fu ti x hx]

/-! ## Frames through the bundle-level and per-entry mutations -/

theorem dget?_bundleSelfId (u0 : String) (bo : JObj) (k : String)
    (h1 : k ≠ idKey) (h2 : k ≠ identifierKey) :
    dget? (bundleSelfId u0 bo) k = dget? bo k := by
  unfold bundleSelfId
  cases hi : dget? (setKey bo idKey (.str u0)) identifierKey with
  | none =>
    simp only [hi]
    simp [dget?_setKey_ne _ _ _ _ h2, dget?_setKey_ne _ _ _ _ h1]
  | some v =>
    cases v <;> simp only [hi] <;>
      simp [dget?_setKey_ne _ _ _ _ h2, dget?_setKey_ne _ _ _ _ h1]

theorem entriesOf_bundleSelfId (u0 : String) (bo : JObj) (es : JArr)
    (hent : dget? bo entryKey = some (.arr es)) :
    entriesOf (bundleSelfId u0 bo) = some (some es) := by
  unfold entriesOf
  rw [dget?_bundleSelfId u0 bo entryKey (by decide) (by decide), hent]

theorem dget?_add_identifier_ne (o : JObj) (urn : String) (k : String)
    (h : k ≠ identifierKey) :
    dget? (add_identifier o urn) k = dget? o k := by
  unfold add_identifier
  cases hi : dget? o identifierKey with
  | none => simp [dget?_setKey_ne _ _ _ _ h]
  | some v =>
    cases v with
    | arr l =>
      by_cases hdup : anyA (isUrnIdent urn) l = true
      · simp [hdup]
      · simp [hdup, dget?_setKey_ne _ _ _ _ h]
    | obj oo => simp [dget?_setKey_ne _ _ _ _ h]
    | null => simp [dget?_setKey_ne _ _ _ _ h]
    | bool b => simp [dget?_setKey_ne _ _ _ _ h]
    | num n => simp [dget?_setKey_ne _ _ _ _ h]
    | str s => simp [dget?_setKey_ne _ _ _ _ h]

/-! ## Pointwise access to the stashed and processed entry sequences -/

theorem aget?_stashA (u : Nat → String) :
    ∀ (es : JArr) (n i : Nat) (e : J), aget? es i = some e →
      aget? (stashA u n es) i = some (stash1 u (n + i) e)
  | .cons x tl, n, 0, e, h => by
    simp only [aget?, Option.some.injEq] at h
    subst h
    simp [stashA, aget?]
  | .cons x tl, n, i+1, e, h => by
    simp only [aget?] at h
    have := aget?_stashA u tl (n+1) i e h
    simpa [stashA, aget?, Nat.add_assoc, Nat.add_comm 1 i] using this

theorem aget?_procA (fu tis : List (String × String)) :
    ∀ (es : JArr) (i : Nat) (e : J), aget? es i = some e →
      aget? (procA fu tis es) i = some (proc1 fu tis e)
  | .cons x tl, 0, e, h => by
    simp only [aget?, Option.some.injEq] at h
    subst h
    simp [procA, aget?]
  | .cons x tl, i+1, e, h => by
    simp only [aget?] at h
    simpa [procA, aget?] using aget?_procA fu tis tl i e h

theorem stashedWF_of_entryWF (u : Nat → String) (n : Nat) (e : J)
    (hwf : entryWFb e = true) (hu : u n ≠ "") : stashedWFb (stash1 u n e) = true := by
  cases e with
  | obj eo =>
    simp only [entryWFb, Bool.and_eq_true] at hwf
    obtain ⟨hgen, hres⟩ := hwf
    rw [Option.isNone_iff_eq_none] at hgen
    simp only [stash1, hgen]
    simp only [stashedWFb, dget?_setKey_self, Bool.and_eq_true]
    constructor
    · simp [truthy, pyStr?, hu]
    · rw [dget?_setKey_ne eo genKey resourceKey _ (by decide)]
      cases hr : dget? eo resourceKey with
      | none => simp
      | some v =>
        rw [hr] at hres
        cases v with
        | obj ro => simp
        | null => simp at hres
        | bool b => simp at hres
        | num n => simp at hres
        | str s => simp at hres
        | arr a => simp at hres
  | null => simp [entryWFb] at hwf
  | bool b => simp [entryWFb] at hwf
  | num n => simp [entryWFb] at hwf
  | str s => simp [entryWFb] at hwf
  | arr a => simp [entryWFb] at hwf

theorem allA_stashA_wf (u : Nat → String) (hgs : GoodSupply u) :
    ∀ (es : JArr) (n : Nat), allA entryWFb es = true →
      allA stashedWFb (stashA u n es) = true
  | .nil, n, _ => rfl
  | .cons e rest, n, h => by
    simp only [allA, Bool.and_eq_true] at h
    simp only [stashA, allA, Bool.and_eq_true]
    exact ⟨stashedWF_of_entryWF u n e h.1 (hgs n).1, allA_stashA_wf u hgs rest (n+1) h.2⟩

/-! ## The assignment pass computes the pure builders -/

theorem entryWF_parts (eo : JObj) (h : entryWFb (.obj eo) = true) :
    dget? eo genKey = none ∧
    ∃ ro, (dget? eo resourceKey).getD (.obj .nil) = .obj ro ∧
      (match dget? ro rtypeKey with
       | none => true | some (.str _) => true | some _ => false) = true := by
  simp only [entryWFb, Bool.and_eq_true] at h
  obtain ⟨hgen, hres⟩ := h
  refine ⟨Option.isNone_iff_eq_none.mp hgen, ?_⟩
  cases hr : dget? eo resourceKey with
  | none => exact ⟨.nil, rfl, by simp [dget?]⟩
  | some v =>
    rw [hr] at hres
    cases v with
    | obj ro => exact ⟨ro, rfl, hres⟩
    | null => simp at hres
    | bool b => simp at hres
    | num n => simp at hres
    | str s => simp at hres
    | arr a => simp at hres

theorem collectFu_eq (u : Nat → String) (n : Nat) (eo : JObj) (fu : List (String × String)) :
    (match dget? eo fullUrlKey with
     | some (.str fs) => dins fu (pyStripWS fs) (to_urn (u n))
     | _ => fu) = stepFuB u n (.obj eo) fu := by
  cases h : dget? eo fullUrlKey with
  | none => simp [stepFuB, fuKeyOf, h]
  | some v => cases v <;> simp [stepFuB, fuKeyOf, h]

theorem collectReg_eq (u : Nat → String) (n : Nat) (eo ro : JObj)
    (tid : List ((String × String) × String)) (tis : List (String × String))
    (hro : (dget? eo resourceKey).getD (.obj .nil) = .obj ro)
    (hrt : (match dget? ro rtypeKey with
            | none => true | some (.str _) => true | some _ => false) = true) :
    ∃ tid1,
      (match dget? ro rtypeKey, dget? ro idKey with
       | some rt, some (.str oid) =>
         if truthy rt then
           match pyStr? rt with
           | some rs =>
             some (dinsT tid (rs, oid) (to_urn (u n)), dins tis (rs ++ "/" ++ oid) (to_urn (u n)))
           | none => none
         else some (tid, tis)
       | _, _ => some (tid, tis)) = some (tid1, stepTisB u n (.obj eo) tis) := by
  cases hr : dget? ro rtypeKey with
  | none =>
    refine ⟨tid, ?_⟩
    cases hid : dget? ro idKey with
    | none => simp [stepTisB, regKeyOf, hro, hr]
    | some w => cases w <;> simp [stepTisB, regKeyOf, hro, hr]
  | some rt =>
    rw [hr] at hrt
    cases rt with
    | str rs =>
      cases hid : dget? ro idKey with
      | none => exact ⟨tid, by simp [stepTisB, regKeyOf, hro, hr, hid]⟩
      | some w =>
        cases w with
        | str oid =>
          by_cases htru : truthy (J.str rs) = true
          · exact ⟨dinsT tid (rs, oid) (to_urn (u n)),
              by simp [stepTisB, regKeyOf, hro, hr, hid, htru, pyStr?]⟩
          · simp only [Bool.not_eq_true] at htru
            exact ⟨tid, by simp [stepTisB, regKeyOf, hro, hr, hid, htru]⟩
        | null => exact ⟨tid, by simp [stepTisB, regKeyOf, hro, hr, hid]⟩
        | bool b => exact ⟨tid, by simp [stepTisB, regKeyOf, hro, hr, hid]⟩
        | num m => exact ⟨tid, by simp [stepTisB, regKeyOf, hro, hr, hid]⟩
        | arr a => exact ⟨tid, by simp [stepTisB, regKeyOf, hro, hr, hid]⟩
        | obj oo => exact ⟨tid, by simp [stepTisB, regKeyOf, hro, hr, hid]⟩
    | null => simp at hrt
    | bool b => simp at hrt
    | num m => simp at hrt
    | arr a => simp at hrt
    | obj oo => simp at hrt

theorem collect_char (u : Nat → String) :
    ∀ (es : JArr) (n : Nat) (fu : List (String × String))
      (tid : List ((String × String) × String)) (tis : List (String × String)),
      allA entryWFb es = true →
      ∃ tid' n',
        collect_uuid_map u n es fu tid tis =
          some (buildFu u n es fu, tid', buildTis u n es tis, stashA u n es, n')
  | .nil, n, fu, tid, tis, _ => ⟨tid, n, rfl⟩
  | .cons e rest, n, fu, tid, tis, hwf => by
    simp only [allA, Bool.and_eq_true] at hwf
    obtain ⟨hwe, hwr⟩ := hwf
    cases e with
    | obj eo =>
      obtain ⟨hgen, ro, hro, hrt⟩ := entryWF_parts eo hwe
      obtain ⟨tid1, hp⟩ := collectReg_eq u n eo ro tid tis hro hrt
      obtain ⟨tid', n', ih⟩ :=
        collect_char u rest (n+1) (stepFuB u n (.obj eo) fu) tid1
          (stepTisB u n (.obj eo) tis) hwr
      refine ⟨tid', n', ?_⟩
      simp only [collect_uuid_map, asObj, Option.bind_eq_bind, Option.some_bind, hro, hp,
        hgen, collectFu_eq, ih, buildFu, buildTis, stashA, stash1]
    | null => simp [entryWFb] at hwe
    | bool b => simp [entryWFb] at hwe
    | num m => simp [entryWFb] at hwe
    | str s => simp [entryWFb] at hwe
    | arr a => simp [entryWFb] at hwe

/-! ## Pass 2 computes procA -/

theorem stashedWF_parts (eo : JObj) (h : stashedWFb (.obj eo) = true) :
    (∃ v us, dget? eo genKey = some v ∧ truthy v = true ∧ pyStr? v = some us) ∧
    ∃ ro, (dget? eo resourceKey).getD (.obj .nil) = .obj ro := by
  simp only [stashedWFb, Bool.and_eq_true] at h
  obtain ⟨hgen, hres⟩ := h
  constructor
  · cases hg : dget? eo genKey with
    | none => rw [hg] at hgen; simp at hgen
    | some v =>
      rw [hg] at hgen
      simp only [Bool.and_eq_true] at hgen
      obtain ⟨us, hus⟩ := Option.isSome_iff_exists.mp hgen.2
      exact ⟨v, us, rfl, hgen.1, hus⟩
  · cases hr : dget? eo resourceKey with
    | none => exact ⟨.nil, rfl⟩
    | some v =>
      rw [hr] at hres
      cases v with
      | obj ro => exact ⟨ro, rfl⟩
      | null => simp at hres
      | bool b => simp at hres
      | num n => simp at hres
      | str s => simp at hres
      | arr a => simp at hres

theorem proc_char (u : Nat → String) (fu tis : List (String × String)) :
    ∀ (es : JArr) (n : Nat) (unk : List String), allA stashedWFb es = true →
      ∃ n' unk', processEntries u fu tis n es unk = some (procA fu tis es, n', unk')
  | .nil, n, unk, _ => ⟨n, unk, rfl⟩
  | .cons e rest, n, unk, hwf => by
    simp only [allA, Bool.and_eq_true] at hwf
    obtain ⟨hwe, hwr⟩ := hwf
    cases e with
    | obj eo =>
      obtain ⟨⟨v, us, hv, htru, hus⟩, ro, hro⟩ := stashedWF_parts eo hwe
      obtain ⟨n', unk', ih⟩ :=
        proc_char u fu tis rest n
          ((rewriteObj fu tis (add_identifier (setKey ro idKey v) (to_urn us)) unk).2) hwr
      refine ⟨n', unk', ?_⟩
      simp only [processEntries, asObj, Option.bind_eq_bind, Option.some_bind, hro, hv,
        htru, hus, if_true, rwObj_fst, ih, procA, proc1]
    | null => simp [stashedWFb] at hwe
    | bool b => simp [stashedWFb] at hwe
    | num m => simp [stashedWFb] at hwe
    | str s => simp [stashedWFb] at hwe
    | arr a => simp [stashedWFb] at hwe

/-! ## transform_bundle, characterized on well-formed bundles -/

theorem transform_char (u : Nat → String) (bo : JObj) (es : JArr)
    (hent : dget? bo entryKey = some (.arr es))
    (hwf : bundleWFb (.obj bo) = true) (hgs : GoodSupply u) :
    ∃ unk1,
      transform_bundle u (.obj bo) =
        some (.obj (rewritePObj (buildFu u 1 es []) (buildTis u 1 es []) (bo4F u bo es)),
          (rewriteObj (buildFu u 1 es []) (buildTis u 1 es []) (bo4F u bo es) unk1).2) := by
  have hall : allA entryWFb es = true := by
    simp only [bundleWFb, hent] at hwf
    exact hwf
  obtain ⟨tid', n', hcoll⟩ := collect_char u es 1 [] [] [] hall
  obtain ⟨n'', unk', hproc⟩ :=
    proc_char u (buildFu u 1 es []) (buildTis u 1 es []) (stashA u 1 es) n' []
      (allA_stashA_wf u hgs es 1 hall)
  refine ⟨unk', ?_⟩
  simp only [transform_bundle, asObj, Option.bind_eq_bind, Option.some_bind,
    entriesOf_bundleSelfId (u 0) bo es hent, hcoll, hproc, bo4F, setKey_setKey, rwObj_fst]

theorem dropA_cons_succ (n : Nat) (e : J) (tl : JArr) :
    dropA (n+1) (.cons e tl) = dropA n tl := rfl

/-- by_typeid_str lookup: entries that register other keys do not
disturb the binding of this key. -/
theorem buildTis_frame (u : Nat → String) (key : String) :
    ∀ (es : JArr) (n : Nat) (tis : List (String × String)),
      allA (fun e => !(regKeyOf e == some key)) es = true →
      dfind? (buildTis u n es tis) key = dfind? tis key
  | .nil, n, tis, _ => rfl
  | .cons e rest, n, tis, h => by
    simp only [allA, Bool.and_eq_true] at h
    rw [buildTis, buildTis_frame u key rest (n+1) _ h.2]
    unfold stepTisB
    cases hr : regKeyOf e with
    | none => rfl
    | some k2 =>
      have hne : key ≠ k2 := by
        intro he
        have h1 := h.1
        rw [hr, he] at h1
        simp at h1
      exact dfind?_dins_ne k2 key (to_urn (u n)) hne tis

/-- by_typeid_str maps a key to the urn generated for the last entry
that registers it. -/
theorem buildTis_last (u : Nat → String) (key : String) :
    ∀ (es : JArr) (n : Nat) (tis : List (String × String)) (r : Nat) (er : J),
      aget? es r = some er → regKeyOf er = some key →
      allA (fun e => !(regKeyOf e == some key)) (dropA (r+1) es) = true →
      dfind? (buildTis u n es tis) key = some (to_urn (u (n + r)))
  | .cons e rest, n, tis, 0, er, hi, hreg, hlast => by
    simp only [aget?, Option.some.injEq] at hi
    subst hi
    rw [buildTis, buildTis_frame u key rest (n+1) _ (by simpa [dropA] using hlast)]
    simp [stepTisB, hreg, dfind?_dins_self]
  | .cons e rest, n, tis, r+1, er, hi, hreg, hlast => by
    simp only [aget?] at hi
    rw [buildTis]
    have := buildTis_last u key rest (n+1) (stepTisB u n e tis) r er hi hreg
      (by simpa [dropA_cons_succ] using hlast)
    simpa [Nat.add_assoc, Nat.add_comm 1 r] using this

/-- by_fullurl lookup misses every key no entry registers. -/
theorem buildFu_frame (u : Nat → String) (key : String) :
    ∀ (es : JArr) (n : Nat) (fu : List (String × String)),
      allA (fun e => !(fuKeyOf e == some key)) es = true →
      dfind? (buildFu u n es fu) key = dfind? fu key
  | .nil, n, fu, _ => rfl
  | .cons e rest, n, fu, h => by
    simp only [allA, Bool.and_eq_true] at h
    rw [buildFu, buildFu_frame u key rest (n+1) _ h.2]
    unfold stepFuB
    cases hr : fuKeyOf e with
    | none => rfl
    | some k2 =>
      have hne : key ≠ k2 := by
        intro he
        have h1 := h.1
        rw [hr, he] at h1
        simp at h1
      exact dfind?_dins_ne k2 key (to_urn (u n)) hne fu

theorem buildFu_none (u : Nat → String) (key : String) (es : JArr)
    (h : allA (fun e => !(fuKeyOf e == some key)) es = true) :
    dfind? (buildFu u 1 es []) key = none := by
  rw [buildFu_frame u key es 1 [] h]
  rfl

theorem buildTis_none (u : Nat → String) (key : String) (es : JArr)
    (h : allA (fun e => !(regKeyOf e == some key)) es = true) :
    dfind? (buildTis u 1 es []) key = none := by
  rw [buildTis_frame u key es 1 [] h]
  rfl

/-! ## Structure of REF_RE matches -/

theorem splitSlash_ne_nil : ∀ (l : List Char), splitSlash l ≠ []
  | [] => by simp [splitSlash]
  | c :: rest => by
    cases hs : splitSlash rest with
    | nil => exact absurd hs (splitSlash_ne_nil rest)
    | cons g gs => by_cases hc : c = '/' <;> simp [splitSlash, hs, hc]

theorem splitSlash_cons_of (c : Char) (l g : List Char) (gs : List (List Char))
    (hc : ¬ c = '/') (h : splitSlash l = g :: gs) :
    splitSlash (c :: l) = (c :: g) :: gs := by
  simp [splitSlash, h, hc]

theorem splitSlash_no_slash : ∀ (l : List Char), (∀ c ∈ l, ¬ c = '/') → splitSlash l = [l]
  | [], _ => rfl
  | c :: rest, h =>
    splitSlash_cons_of c rest rest [] (h c (by simp))
      (splitSlash_no_slash rest (fun d hd => h d (by simp [hd])))

theorem splitSlash_append : ∀ (a b : List Char), (∀ c ∈ a, ¬ c = '/') →
    splitSlash (a ++ '/' :: b) = a :: splitSlash b
  | [], b, _ => by
    cases hs : splitSlash b with
    | nil => exact absurd hs (splitSlash_ne_nil b)
    | cons g gs => simp [splitSlash, hs]
  | c :: a, b, h => by
    rw [List.cons_append]
    exact splitSlash_cons_of c _ a (splitSlash b) (h c (by simp))
      (splitSlash_append a b (fun d hd => h d (by simp [hd])))

theorem kindOk_parts (kd : List Char) (hk : kindOkL kd = true) :
    ∃ c0 r, kd = c0 :: r ∧ c0.isAlpha = true ∧ r ≠ [] ∧ ∀ c ∈ r, c.isAlphanum = true := by
  cases kd with
  | nil => simp [kindOkL] at hk
  | cons c0 r =>
    simp only [kindOkL, Bool.and_eq_true, List.all_eq_true, decide_eq_true_eq] at hk
    refine ⟨c0, r, rfl, hk.1.1, ?_, hk.2⟩
    intro he
    subst he
    exact absurd hk.1.2 (by decide)

theorem kindOk_no_slash (kd : List Char) (hk : kindOkL kd = true) : ∀ c ∈ kd, ¬ c = '/' := by
  obtain ⟨c0, r, hkd, ha, _, hall⟩ := kindOk_parts kd hk
  subst hkd
  intro c hc he
  subst he
  rcases List.mem_cons.mp hc with h | h
  · rw [← h] at ha
    exact absurd ha (by decide)
  · exact absurd (hall _ h) (by decide)

theorem idOk_all (ld : List Char) (hl : idOkL ld = true) : ∀ c ∈ ld, idChar c = true := by
  simp only [idOkL, Bool.and_eq_true, List.all_eq_true] at hl
  exact hl.2

theorem idOk_no_slash (ld : List Char) (hl : idOkL ld = true) : ∀ c ∈ ld, ¬ c = '/' := by
  intro c hc he
  subst he
  exact absurd (idOk_all ld hl _ hc) (by decide)

theorem clean_of_alnum (c : Char) (h : c.isAlphanum = true) :
    pyIsSpace c = false ∧ quoteCh c = false := by
  constructor
  · by_contra hb
    simp only [Bool.not_eq_false, pyIsSpace, Bool.or_eq_true, decide_eq_true_eq] at hb
    rcases hb with ((((h1|h1)|h1)|h1)|h1)|h1 <;> subst h1 <;> exact absurd h (by decide)
  · by_contra hb
    simp only [Bool.not_eq_false, quoteCh, Bool.or_eq_true, decide_eq_true_eq] at hb
    rcases hb with h1|h1 <;> subst h1 <;> exact absurd h (by decide)

theorem clean_of_idChar (c : Char) (h : idChar c = true) :
    pyIsSpace c = false ∧ quoteCh c = false := by
  simp only [idChar, Bool.or_eq_true, decide_eq_true_eq] at h
  rcases h with (h|h)|h
  · exact clean_of_alnum c h
  · subst h
    exact ⟨by decide, by decide⟩
  · subst h
    exact ⟨by decide, by decide⟩

/-- A relative `Kind/id` reference cannot carry the absolute http base. -/
theorem kind_not_http (kd ld : List Char) (hk : kindOkL kd = true) :
    ['h', 't', 't', 'p', ':', '/', '/'].isPrefixOf (kd ++ '/' :: ld) = false := by
  by_contra hb
  simp only [Bool.not_eq_false] at hb
  rw [List.isPrefixOf_iff_prefix] at hb
  obtain ⟨t, ht⟩ := hb
  obtain ⟨c0, r, hkd, _, hne, hall⟩ := kindOk_parts kd hk
  subst hkd
  rcases r with _ | ⟨c1, r⟩
  · exact absurd rfl hne
  rcases r with _ | ⟨c2, r⟩
  · simp at ht
  rcases r with _ | ⟨c3, r⟩
  · simp at ht
  rcases r with _ | ⟨c4, r⟩
  · simp at ht
  · simp only [List.cons_append, List.cons.injEq] at ht
    obtain ⟨_, _, _, _, hc4, _⟩ := ht
    have : c4.isAlphanum = true := hall c4 (by simp)
    rw [← hc4] at this
    exact absurd this (by decide)

/-- A relative `Kind/id` reference cannot carry the absolute https base. -/
theorem kind_not_https (kd ld : List Char) (hk : kindOkL kd = true) :
    ['h', 't', 't', 'p', 's', ':', '/', '/'].isPrefixOf (kd ++ '/' :: ld) = false := by
  by_contra hb
  simp only [Bool.not_eq_false] at hb
  rw [List.isPrefixOf_iff_prefix] at hb
  obtain ⟨t, ht⟩ := hb
  obtain ⟨c0, r, hkd, _, hne, hall⟩ := kindOk_parts kd hk
  subst hkd
  rcases r with _ | ⟨c1, r⟩
  · exact absurd rfl hne
  rcases r with _ | ⟨c2, r⟩
  · simp at ht
  rcases r with _ | ⟨c3, r⟩
  · simp at ht
  rcases r with _ | ⟨c4, r⟩
  · simp at ht
  rcases r with _ | ⟨c5, r⟩
  · simp at ht
  · simp only [List.cons_append, List.cons.injEq] at ht
    obtain ⟨_, _, _, _, _, hc5, _⟩ := ht
    have : c5.isAlphanum = true := hall c5 (by simp)
    rw [← hc5] at this
    exact absurd this (by decide)

/-- REF_RE accepts a well-formed relative `Kind/id` reference and
captures the two groups. -/
theorem refMatch_concat (kd ld : List Char) (hk : kindOkL kd = true) (hl : idOkL ld = true) :
    refMatch (String.mk (kd ++ '/' :: ld)) = some (String.mk kd, String.mk ld) := by
  have hsplit : splitSlash (kd ++ '/' :: ld) = [kd, ld] := by
    rw [splitSlash_append kd ld (kindOk_no_slash kd hk),
      splitSlash_no_slash ld (idOk_no_slash ld hl)]
  unfold refMatch pyStartsWith
  simp only [httpsHead, httpHead]
  simp only [kind_not_https kd ld hk, kind_not_http kd ld hk, Bool.false_eq_true, if_false]
  unfold refTailMatch
  rw [hsplit]
  simp [hk, hl]

/-- A candidate accepted by REF_RE neither starts with the canonical
prefix nor with the local-pointer marker. -/
theorem refMatch_not_pre (c : String) (g : String × String) (h : refMatch c = some g) :
    (pyStartsWith c URN_HEAD || pyStartsWith c ("#")) = false := by
  by_contra hb
  simp only [Bool.not_eq_false, Bool.or_eq_true] at hb
  have hnone : refMatch c = none := by
    rcases hb with hu | hh
    · unfold pyStartsWith at hu
      rw [List.isPrefixOf_iff_prefix] at hu
      obtain ⟨t, ht⟩ := hu
      have hts : c.data = 'u' :: 'r' :: 'n' :: ':' :: 'u' :: 'u' :: 'i' :: 'd' :: ':' :: t := by
        rw [← ht]
        rfl
      obtain ⟨g0, gs0, hg0⟩ :
          ∃ g0 gs0, splitSlash ('u' :: 'r' :: 'n' :: ':' :: 'u' :: 'u' :: 'i' :: 'd' :: ':' :: t)
            = ('u' :: 'r' :: 'n' :: ':' :: 'u' :: 'u' :: 'i' :: 'd' :: ':' :: g0) :: gs0 := by
        cases hs : splitSlash t with
        | nil => exact absurd hs (splitSlash_ne_nil t)
        | cons g gs =>
          refine ⟨g, gs, ?_⟩
          repeat rw [splitSlash_cons_of _ _ _ _ (by decide)]
          exact hs
      unfold refMatch pyStartsWith
      simp only [httpsHead, httpHead]
      have hpre1 : ['h', 't', 't', 'p', 's', ':', '/', '/'].isPrefixOf ('u' :: 'r' :: 'n'
          :: ':' :: 'u' :: 'u' :: 'i' :: 'd' :: ':' :: t) = false := by
        simp [List.isPrefixOf]
      have hpre2 : ['h', 't', 't', 'p', ':', '/', '/'].isPrefixOf ('u' :: 'r' :: 'n'
          :: ':' :: 'u' :: 'u' :: 'i' :: 'd' :: ':' :: t) = false := by
        simp [List.isPrefixOf]
      simp only [hts, hpre1, hpre2, Bool.false_eq_true, if_false]
      unfold refTailMatch
      rw [hg0]
      cases gs0 with
      | nil => rfl
      | cons g1 gs1 =>
        cases gs1 with
        | nil =>
          have hkind : kindOkL ('u' :: 'r' :: 'n' :: ':' :: 'u' :: 'u' :: 'i' :: 'd'
              :: ':' :: g0) = false := by
            simp only [kindOkL, List.all_cons, Bool.and_eq_true]
            have : (':'.isAlphanum) = false := by decide
            simp [this]
          simp [hkind]
        | cons g2 gs2 => rfl
    · unfold pyStartsWith at hh
      rw [List.isPrefixOf_iff_prefix] at hh
      obtain ⟨t, ht⟩ := hh
      have hts : c.data = '#' :: t := by
        rw [← ht]
        rfl
      obtain ⟨g0, gs0, hg0⟩ :
          ∃ g0 gs0, splitSlash ('#' :: t) = ('#' :: g0) :: gs0 := by
        cases hs : splitSlash t with
        | nil => exact absurd hs (splitSlash_ne_nil t)
        | cons g gs => exact ⟨g, gs, splitSlash_cons_of _ _ _ _ (by decide) hs⟩
      unfold refMatch pyStartsWith
      simp only [httpsHead, httpHead]
      have hpre1 : ['h', 't', 't', 'p', 's', ':', '/', '/'].isPrefixOf ('#' :: t) = false := by
        simp [List.isPrefixOf]
      have hpre2 : ['h', 't', 't', 'p', ':', '/', '/'].isPrefixOf ('#' :: t) = false := by
        simp [List.isPrefixOf]
      simp only [hts, hpre1, hpre2, Bool.false_eq_true, if_false]
      unfold refTailMatch
      rw [hg0]
      cases gs0 with
      | nil => rfl
      | cons g1 gs1 =>
        cases gs1 with
        | nil =>
          have hkind : kindOkL ('#' :: g0) = false := by
            simp only [kindOkL]
            have : ('#'.isAlpha) = false := by decide
            simp [this]
          simp [hkind]
        | cons g2 gs2 => rfl
  rw [hnone] at h
  exact Option.noConfusion h

theorem getPath_ro2_eq (ro : JObj) (nu : J) (urn : String) (q : List PathElem)
    (hq : headKeyOkB q = true) :
    getPath (.obj (add_identifier (setKey ro idKey nu) urn)) (q ++ [.key refKey]) =
      getPath (.obj ro) (q ++ [.key refKey]) := by
  have frame : ∀ k0 : String, k0 ≠ idKey → k0 ≠ identifierKey →
      dget? (add_identifier (setKey ro idKey nu) urn) k0 = dget? ro k0 := by
    intro k0 h1 h2
    rw [dget?_add_identifier_ne _ _ _ h2, dget?_setKey_ne _ _ _ _ h1]
  cases q with
  | nil =>
    simp only [List.nil_append, getPath, childAt]
    rw [frame refKey (by decide) (by decide)]
  | cons e q' =>
    cases e with
    | key k0 =>
      simp only [headKeyOkB, Bool.and_eq_true, Bool.not_eq_true', beq_eq_false_iff_ne] at hq
      simp only [List.cons_append, getPath, childAt]
      rw [frame k0 hq.1 hq.2]
    | idx j =>
      simp only [List.cons_append, getPath, childAt]

/-- The value of a reference field of a record, as it stands in the
bundle after both per-entry passes: rewritten once. -/
theorem bo4F_path (u : Nat → String) (bo : JObj) (es : JArr) (i : Nat) (eo ro : JObj)
    (q : List PathElem) (s : String)
    (hi : aget? es i = some (.obj eo))
    (hgen : dget? eo genKey = none)
    (hres : dget? eo resourceKey = some (.obj ro))
    (hq : headKeyOkB q = true)
    (hval : getPath (.obj ro) (q ++ [.key refKey]) = some (.str s)) :
    getPath (.obj (bo4F u bo es))
      (.key entryKey :: .idx i :: .key resourceKey :: (q ++ [.key refKey])) =
      some (.str (rewriteVal (buildFu u 1 es []) (buildTis u 1 es []) s)) := by
  have hstash : aget? (stashA u 1 es) i = some (stash1 u (1 + i) (.obj eo)) :=
    aget?_stashA u es 1 i (.obj eo) hi
  have hproc :
      aget? (procA (buildFu u 1 es []) (buildTis u 1 es []) (stashA u 1 es)) i =
        some (proc1 (buildFu u 1 es []) (buildTis u 1 es []) (stash1 u (1 + i) (.obj eo))) :=
    aget?_procA _ _ _ i _ hstash
  -- the processed entry, unfolded
  set fuF := buildFu u 1 es [] with hfu
  set tisF := buildTis u 1 es [] with htis
  have hs1 : stash1 u (1 + i) (.obj eo) = .obj (setKey eo genKey (.str (u (1 + i)))) := by
    simp [stash1, hgen]
  have hresS : dget? (setKey eo genKey (.str (u (1 + i)))) resourceKey = some (.obj ro) := by
    rw [dget?_setKey_ne _ _ _ _ (by decide)]
    exact hres
  have hp1 : proc1 fuF tisF (stash1 u (1 + i) (.obj eo)) =
      .obj (delKey
        (setKey (setKey (setKey eo genKey (.str (u (1 + i)))) fullUrlKey
            (.str (to_urn (u (1 + i))))) resourceKey
          (.obj (rewritePObj fuF tisF
            (add_identifier (setKey ro idKey (.str (u (1 + i)))) (to_urn (u (1 + i)))))))
        genKey) := by
    rw [hs1]
    simp only [proc1, dget?_setKey_self, pyStr?, hresS, Option.getD]
  -- walk the path
  simp only [getPath, childAt, bo4F]
  rw [dget?_setKey_self]
  simp only [Option.some_bind]
  rw [← hfu, ← htis, hproc]
  simp only [Option.some_bind]
  rw [hp1]
  simp only [getPath, childAt]
  rw [dget?_delKey_ne _ _ _ (by decide), dget?_setKey_self]
  simp only [Option.some_bind]
  have hrw : (J.obj (rewritePObj fuF tisF
      (add_identifier (setKey ro idKey (.str (u (1 + i)))) (to_urn (u (1 + i)))))) =
      rewritePureJ fuF tisF (.obj
        (add_identifier (setKey ro idKey (.str (u (1 + i)))) (to_urn (u (1 + i))))) := by
    simp [rewritePureJ]
  rw [hrw]
  exact getPath_rewrite fuF tisF s q _
    (by rw [getPath_ro2_eq _ _ _ q hq]; exact hval)

/-! ## Remaining helper lemmas for the claims -/

theorem entryWF_at (bo : JObj) (es : JArr) (i : Nat) (e : J)
    (hwf : bundleWFb (.obj bo) = true) (hent : dget? bo entryKey = some (.arr es))
    (hi : aget? es i = some e) : entryWFb e = true := by
  simp only [bundleWFb, hent] at hwf
  exact allA_aget hwf hi

theorem entryWF_gen (eo : JObj) (h : entryWFb (.obj eo) = true) : dget? eo genKey = none := by
  simp only [entryWFb, Bool.and_eq_true] at h
  exact Option.isNone_iff_eq_none.mp h.1

/-- The image of one well-formed stashed entry under the pass-2 loop
body. -/
theorem proc1_stash_eq (fu tis : List (String × String)) (u : Nat → String) (n : Nat)
    (eo ro : JObj) (hgen : dget? eo genKey = none)
    (hres : dget? eo resourceKey = some (.obj ro)) :
    proc1 fu tis (stash1 u n (.obj eo)) =
      .obj (delKey
        (setKey (setKey (setKey eo genKey (.str (u n))) fullUrlKey (.str (to_urn (u n))))
          resourceKey
          (.obj (rewritePObj fu tis
            (add_identifier (setKey ro idKey (.str (u n))) (to_urn (u n)))))) genKey) := by
  have hresS : dget? (setKey eo genKey (.str (u n))) resourceKey = some (.obj ro) := by
    rw [dget?_setKey_ne _ _ _ _ (by decide)]
    exact hres
  simp only [stash1, hgen]
  simp only [proc1, dget?_setKey_self, pyStr?, hresS, Option.getD]

theorem isUrnIdent_identJ (urn_value : String) : isUrnIdent urn_value (identJ urn_value) = true := by
  simp [isUrnIdent, identJ, dget?, systemKey, valueKey]

theorem aget?_snocA : ∀ (l : JArr) (v : J) (j : Nat) (x : J),
    aget? l j = some x → aget? (snocA l v) j = some x
  | .cons y tl, v, 0, x, h => by simpa [snocA, aget?] using h
  | .cons y tl, v, j+1, x, h => by
    simp only [aget?] at h
    simpa [snocA, aget?] using aget?_snocA tl v j x h

theorem entriesOf_none_cases (bo : JObj) (h : entriesOf bo = some none) :
    dget? bo entryKey = none ∨ dget? bo entryKey = some (.str "") ∨
      dget? bo entryKey = some (.obj .nil) := by
  unfold entriesOf at h
  cases he : dget? bo entryKey with
  | none => exact Or.inl rfl
  | some v =>
    rw [he] at h
    cases v with
    | str s =>
      by_cases hs : s = ""
      · subst hs
        exact Or.inr (Or.inl rfl)
      · simp [hs] at h
    | obj o =>
      cases o with
      | nil => exact Or.inr (Or.inr rfl)
      | cons k w tl => simp at h
    | arr l => simp at h
    | null => simp at h
    | bool b => simp at h
    | num n => simp at h

/-- Every entry produced by pass 2 is a mapping without the transient
stash key (it is deleted unconditionally at the end of the loop body). -/
theorem processEntries_no_gen (u : Nat → String) (fu tis : List (String × String)) :
    ∀ (es : JArr) (n : Nat) (unk : List String) (es' : JArr) (n' : Nat) (unk' : List String),
      processEntries u fu tis n es unk = some (es', n', unk') →
      ∀ (i : Nat) (e' : J), aget? es' i = some e' →
        ∃ eo', e' = .obj eo' ∧ dget? eo' genKey = none
  | .nil, n, unk, es', n', unk', h => by
    simp only [processEntries, Option.some.injEq, Prod.mk.injEq] at h
    intro i e' hi
    rw [← h.1] at hi
    simp [aget?] at hi
  | .cons e rest, n, unk, es', n', unk', h => by
    simp only [processEntries, Option.bind_eq_bind, Option.bind_eq_some] at h
    obtain ⟨eo, heo, h⟩ := h
    obtain ⟨ro, hro, h⟩ := h
    obtain ⟨us, hus, h⟩ := h
    obtain ⟨r, hr, h⟩ := h
    simp only [Option.some.injEq, Prod.mk.injEq] at h
    intro i e' hi
    rw [← h.1] at hi
    cases i with
    | zero =>
      simp only [aget?, Option.some.injEq] at hi
      exact ⟨_, hi.symm, dget?_delKey_self _ _⟩
    | succ j =>
      simp only [aget?] at hi
      exact processEntries_no_gen u fu tis rest _ _ _ _ _ hr j e' hi

/-! ## The two shared end-to-end cores: a resolvable reference is
rewritten to the registered urn; an unresolvable one is kept and
reported -/

theorem dropWhile_append_keep (p : Char → Bool) (a : List Char)
    (ha : ∀ c ∈ a, p c = false) :
    ∀ (x : List Char), ∃ r, List.dropWhile p (x ++ a) = r ++ a
  | [] => ⟨[], by simpa using dropWhile_of_all_false p a ha⟩
  | c :: x => by
    by_cases hc : p c = true
    · obtain ⟨r, hr⟩ := dropWhile_append_keep p a ha x
      exact ⟨r, by simpa [List.dropWhile_cons, hc] using hr⟩
    · simp only [Bool.not_eq_true] at hc
      exact ⟨c :: x, by simp [List.dropWhile_cons, hc]⟩

theorem stripEndsL_prefix (p : Char → Bool) (a t : List Char)
    (ha : ∀ c ∈ a, p c = false) :
    ∃ t', stripEndsL p (a ++ t) = a ++ t' := by
  cases a with
  | nil => exact ⟨stripEndsL p t, by simp⟩
  | cons c a' =>
    unfold stripEndsL
    have h1 : ((c :: a') ++ t).dropWhile p = (c :: a') ++ t := by
      have hc : p c = false := ha c (by simp)
      simp [List.dropWhile_cons, hc]
    rw [h1, List.reverse_append]
    obtain ⟨r, hr⟩ := dropWhile_append_keep p (c :: a').reverse
      (fun d hd => ha d (List.mem_reverse.mp hd)) t.reverse
    rw [hr, List.reverse_append, List.reverse_reverse]
    exact ⟨r.reverse, rfl⟩

/-- A raw reference whose sanitized form matches REF_RE cannot itself
start with the canonical prefix or the local-pointer marker (the
sanitizer preserves either prefix, and REF_RE rejects both). -/
theorem raw_not_pre_of_match (s : String) (g : String × String)
    (hm : refMatch (sanitize_ref_string s) = some g) :
    (pyStartsWith s URN_HEAD || pyStartsWith s ("#")) = false := by
  have hnp := refMatch_not_pre _ g hm
  by_contra hb
  simp only [Bool.not_eq_false, Bool.or_eq_true] at hb
  have hpre : ∃ (pre : String), (pre = URN_HEAD ∨ pre = ("#")) ∧
      pyStartsWith s pre = true ∧ ∀ c ∈ pre.data, pyIsSpace c = false ∧ quoteCh c = false := by
    rcases hb with hu | hh
    · exact ⟨URN_HEAD, Or.inl rfl, hu, urn_head_clean⟩
    · exact ⟨("#"), Or.inr rfl, hh, by decide⟩
  obtain ⟨pre, hp, hsw, hclean⟩ := hpre
  unfold pyStartsWith at hsw
  rw [List.isPrefixOf_iff_prefix] at hsw
  obtain ⟨t, ht⟩ := hsw
  have htrim : ∃ t', (pyTrim s).data = pre.data ++ t' := by
    unfold pyTrim
    rw [show s.data = pre.data ++ t from ht.symm]
    obtain ⟨t1, h1⟩ := stripEndsL_prefix pyIsSpace pre.data t
      (fun c hc => (hclean c hc).1)
    rw [h1]
    obtain ⟨t2, h2⟩ := stripEndsL_prefix quoteCh pre.data t1
      (fun c hc => (hclean c hc).2)
    exact ⟨t2, h2⟩
  obtain ⟨t', ht'⟩ := htrim
  have hswt : pyStartsWith (pyTrim s) pre = true := by
    unfold pyStartsWith
    rw [ht']
    exact isPrefixOf_append_self pre.data t'
  have hcond : (pyStartsWith (pyTrim s) URN_HEAD || pyStartsWith (pyTrim s) ("#")) = true := by
    rcases hp with h | h <;> subst h <;> simp [hswt]
  have hsan : sanitize_ref_string s = pyTrim s := by
    unfold sanitize_ref_string
    simp [hcond]
  rw [hsan, hcond] at hnp
  exact Bool.noConfusion hnp

theorem resolved_ref_core (u : Nat → String) (bo : JObj) (es : JArr) (i r : Nat)
    (eo ro : JObj) (er : J) (q : List PathElem) (s kind lid : String)
    (hwf : bundleWFb (.obj bo) = true) (hgs : GoodSupply u)
    (hent : dget? bo entryKey = some (.arr es))
    (hi : aget? es i = some (.obj eo))
    (hres : dget? eo resourceKey = some (.obj ro))
    (hq : headKeyOkB q = true)
    (hval : getPath (.obj ro) (q ++ [.key refKey]) = some (.str s))
    (hmatch : refMatch (sanitize_ref_string s) = some (kind, lid))
    (hnofu : allA (fun e => !(fuKeyOf e == some (sanitize_ref_string s))) es = true)
    (hr : aget? es r = some er)
    (hreg : regKeyOf er = some (kind ++ "/" ++ lid))
    (hlast : allA (fun e => !(regKeyOf e == some (kind ++ "/" ++ lid))) (dropA (r+1) es) = true) :
    ∃ bo' unk,
      transform_bundle u (.obj bo) = some (.obj bo', unk) ∧
      getPath (.obj bo')
        (.key entryKey :: .idx i :: .key resourceKey :: (q ++ [.key refKey])) =
        some (.str (to_urn (u (1 + r)))) := by
  obtain ⟨unk1, htr⟩ := transform_char u bo es hent hwf hgs
  refine ⟨_, _, htr, ?_⟩
  have hmap : map_reference s (buildFu u 1 es []) (buildTis u 1 es []) =
      some (to_urn (u (1 + r))) := by
    unfold map_reference
    simp only [refMatch_not_pre _ _ hmatch, Bool.false_eq_true, if_false,
      buildFu_none u (sanitize_ref_string s) es hnofu, hmatch,
      buildTis_last u (kind ++ "/" ++ lid) es 1 [] r er hr hreg hlast]
  have hrv : rewriteVal (buildFu u 1 es []) (buildTis u 1 es []) s = to_urn (u (1 + r)) := by
    unfold rewriteVal
    rw [hmap]
  have hb4 := bo4F_path u bo es i eo ro q s hi
    (entryWF_gen eo (entryWF_at bo es i (.obj eo) hwf hent hi))
    hres hq hval
  rw [hrv] at hb4
  have hpath : (PathElem.key entryKey :: PathElem.idx i :: PathElem.key resourceKey ::
      (q ++ [PathElem.key refKey])) =
      ((PathElem.key entryKey :: PathElem.idx i :: PathElem.key resourceKey :: q)
        ++ [PathElem.key refKey]) := by
    simp
  rw [hpath] at hb4 ⊢
  have hfinal := getPath_rewrite (buildFu u 1 es []) (buildTis u 1 es [])
    (to_urn (u (1 + r)))
    (PathElem.key entryKey :: PathElem.idx i :: PathElem.key resourceKey :: q)
    (.obj (bo4F u bo es)) hb4
  rw [rewriteVal_urn _ _ _ (fun c hc => ((hgs (1 + r)).2 c hc))] at hfinal
  simpa [rewritePureJ] using hfinal

theorem unresolved_ref_core (u : Nat → String) (bo : JObj) (es : JArr) (i : Nat)
    (eo ro : JObj) (q : List PathElem) (s kind lid : String)
    (hwf : bundleWFb (.obj bo) = true) (hgs : GoodSupply u)
    (hent : dget? bo entryKey = some (.arr es))
    (hi : aget? es i = some (.obj eo))
    (hres : dget? eo resourceKey = some (.obj ro))
    (hq : headKeyOkB q = true)
    (hval : getPath (.obj ro) (q ++ [.key refKey]) = some (.str s))
    (hmatch : refMatch (sanitize_ref_string s) = some (kind, lid))
    (hnofu : allA (fun e => !(fuKeyOf e == some (sanitize_ref_string s))) es = true)
    (hnoreg : allA (fun e => !(regKeyOf e == some (kind ++ "/" ++ lid))) es = true) :
    ∃ bo' unk,
      transform_bundle u (.obj bo) = some (.obj bo', unk) ∧
      getPath (.obj bo')
        (.key entryKey :: .idx i :: .key resourceKey :: (q ++ [.key refKey])) =
        some (.str s) ∧
      s ∈ unk := by
  obtain ⟨unk1, htr⟩ := transform_char u bo es hent hwf hgs
  have hmap : map_reference s (buildFu u 1 es []) (buildTis u 1 es []) = none := by
    unfold map_reference
    simp only [refMatch_not_pre _ _ hmatch, Bool.false_eq_true, if_false,
      buildFu_none u (sanitize_ref_string s) es hnofu, hmatch,
      buildTis_none u (kind ++ "/" ++ lid) es hnoreg]
  have hrv : rewriteVal (buildFu u 1 es []) (buildTis u 1 es []) s = s := by
    unfold rewriteVal
    rw [hmap]
  have hb4 := bo4F_path u bo es i eo ro q s hi
    (entryWF_gen eo (entryWF_at bo es i (.obj eo) hwf hent hi))
    hres hq hval
  rw [hrv] at hb4
  have hpath : (PathElem.key entryKey :: PathElem.idx i :: PathElem.key resourceKey ::
      (q ++ [PathElem.key refKey])) =
      ((PathElem.key entryKey :: PathElem.idx i :: PathElem.key resourceKey :: q)
        ++ [PathElem.key refKey]) := by
    simp
  refine ⟨_, _, htr, ?_, ?_⟩
  · rw [hpath]
    have hfinal := getPath_rewrite (buildFu u 1 es []) (buildTis u 1 es []) s
      (PathElem.key entryKey :: PathElem.idx i :: PathElem.key resourceKey :: q)
      (.obj (bo4F u bo es)) (by rw [← hpath]; exact hb4)
    rw [hrv] at hfinal
    simpa [rewritePureJ] using hfinal
  · have hmem := mem_rw_of_path (buildFu u 1 es []) (buildTis u 1 es []) s
      ⟨hmap, raw_not_pre_of_match s (kind, lid) hmatch⟩
      (PathElem.key entryKey :: PathElem.idx i :: PathElem.key resourceKey :: q)
      (.obj (bo4F u bo es)) unk1 (by rw [← hpath]; exact hb4)
    rw [rw_snd_obj] at hmem
    exact hmem

/-! ## Helper facts for add_identifier -/

theorem add_identifier_stable (r : JObj) (urn_value : String) (l : JArr)
    (h : dget? r identifierKey = some (.arr l)) (hany : anyA (isUrnIdent urn_value) l = true) :
    add_identifier r urn_value = r := by
  simp [add_identifier, h, hany]

theorem kindOk_clean (kd : List Char) (hk : kindOkL kd = true) :
    ∀ c ∈ kd, pyIsSpace c = false ∧ quoteCh c = false := by
  obtain ⟨c0, r, hkd, ha, _, hall⟩ := kindOk_parts kd hk
  subst hkd
  intro c hc
  rcases List.mem_cons.mp hc with h | h
  · subst h
    exact clean_of_alnum c (by simp [Char.isAlphanum, ha])
  · exact clean_of_alnum c (hall c h)

theorem concat_data (kind lid : String) :
    (kind ++ "/" ++ lid).data = kind.data ++ '/' :: lid.data := by
  simp [String.data_append]

theorem concat_clean (kind lid : String) (hk : kindOkL kind.data = true)
    (hl : idOkL lid.data = true) :
    ∀ c ∈ (kind ++ "/" ++ lid).data, pyIsSpace c = false ∧ quoteCh c = false := by
  rw [concat_data]
  intro c hc
  rcases List.mem_append.mp hc with h | h
  · exact kindOk_clean kind.data hk c h
  · rcases List.mem_cons.mp h with h | h
    · subst h
      exact ⟨by decide, by decide⟩
    · exact clean_of_idChar c (idOk_all lid.data hl c h)

theorem refMatch_of_concat (kind lid : String) (hk : kindOkL kind.data = true)
    (hl : idOkL lid.data = true) :
    refMatch (kind ++ "/" ++ lid) = some (kind, lid) := by
  have h1 : (kind ++ "/" ++ lid) = String.mk (kind.data ++ '/' :: lid.data) := by
    rw [← concat_data]
  rw [h1, refMatch_concat kind.data lid.data hk hl, mkData, mkData]

/-! ## The claims -/

/-- C6: applying add_identifier twice with the same canonical urn value
to the same record yields the same record as applying it once: the
second application finds the {system, value} entry already present and
appends nothing. -/
theorem claim_C6 (resource : JObj) (urn_value : String) :
    add_identifier (add_identifier resource urn_value) urn_value =
      add_identifier resource urn_value := by
  cases hi : dget? resource identifierKey with
  | none =>
    have h1 : add_identifier resource urn_value =
        setKey resource identifierKey (.arr (.cons (identJ urn_value) .nil)) := by
      simp [add_identifier, hi]
    rw [h1]
    exact add_identifier_stable _ _ _ (dget?_setKey_self _ _ _)
      (by simp [anyA, isUrnIdent_identJ])
  | some v =>
    cases v with
    | arr l =>
      by_cases hdup : anyA (isUrnIdent urn_value) l = true
      · have h1 : add_identifier resource urn_value = resource :=
          add_identifier_stable _ _ _ hi hdup
        simp only [h1]
      · have h1 : add_identifier resource urn_value =
            setKey resource identifierKey (.arr (snocA l (identJ urn_value))) := by
          simp only [Bool.not_eq_true] at hdup
          simp [add_identifier, hi, hdup]
        rw [h1]
        exact add_identifier_stable _ _ _ (dget?_setKey_self _ _ _)
          (by rw [anyA_snocA]; simp [isUrnIdent_identJ])
    | obj o =>
      have h1 : add_identifier resource urn_value =
          setKey resource identifierKey
            (.arr (.cons (.obj o) (.cons (identJ urn_value) .nil))) := by
        simp [add_identifier, hi]
      rw [h1]
      exact add_identifier_stable _ _ _ (dget?_setKey_self _ _ _)
        (by simp [anyA, isUrnIdent_identJ])
    | null =>
      have h1 : add_identifier resource urn_value =
          setKey resource identifierKey (.arr (.cons (identJ urn_value) .nil)) := by
        simp [add_identifier, hi]
      rw [h1]
      exact add_identifier_stable _ _ _ (dget?_setKey_self _ _ _)
        (by simp [anyA, isUrnIdent_identJ])
    | bool b =>
      have h1 : add_identifier resource urn_value =
          setKey resource identifierKey (.arr (.cons (identJ urn_value) .nil)) := by
        simp [add_identifier, hi]
      rw [h1]
      exact add_identifier_stable _ _ _ (dget?_setKey_self _ _ _)
        (by simp [anyA, isUrnIdent_identJ])
    | num n =>
      have h1 : add_identifier resource urn_value =
          setKey resource identifierKey (.arr (.cons (identJ urn_value) .nil)) := by
        simp [add_identifier, hi]
      rw [h1]
      exact add_identifier_stable _ _ _ (dget?_setKey_self _ _ _)
        (by simp [anyA, isUrnIdent_identJ])
    | str s =>
      have h1 : add_identifier resource urn_value =
          setKey resource identifierKey (.arr (.cons (identJ urn_value) .nil)) := by
        simp [add_identifier, hi]
      rw [h1]
      exact add_identifier_stable _ _ _ (dget?_setKey_self _ _ _)
        (by simp [anyA, isUrnIdent_identJ])

/-- C7: add_identifier never discards a pre-existing secondary
identifier of a different value: an absent field becomes the singleton
sequence with the new entry, a single object becomes the two-element
sequence existing-first/new-second, and in a sequence every existing
element survives at its position (the new entry is appended at most). -/
theorem claim_C7 (resource : JObj) (urn_value : String) :
    (dget? resource identifierKey = none →
      dget? (add_identifier resource urn_value) identifierKey =
        some (.arr (.cons (identJ urn_value) .nil))) ∧
    (∀ o : JObj, dget? resource identifierKey = some (.obj o) →
      dget? (add_identifier resource urn_value) identifierKey =
        some (.arr (.cons (.obj o) (.cons (identJ urn_value) .nil)))) ∧
    (∀ l : JArr, dget? resource identifierKey = some (.arr l) →
      ∃ l', dget? (add_identifier resource urn_value) identifierKey = some (.arr l') ∧
        (l' = l ∨ l' = snocA l (identJ urn_value)) ∧
        ∀ (j : Nat) (x : J), aget? l j = some x → aget? l' j = some x) := by
  refine ⟨?_, ?_, ?_⟩
  · intro hi
    simp [add_identifier, hi, dget?_setKey_self]
  · intro o hi
    simp [add_identifier, hi, dget?_setKey_self]
  · intro l hi
    by_cases hdup : anyA (isUrnIdent urn_value) l = true
    · refine ⟨l, ?_, Or.inl rfl, fun j x hx => hx⟩
      rw [add_identifier_stable _ _ _ hi hdup]
      exact hi
    · refine ⟨snocA l (identJ urn_value), ?_, Or.inr rfl, fun j x hx => aget?_snocA l _ j x hx⟩
      simp only [Bool.not_eq_true] at hdup
      simp [add_identifier, hi, hdup, dget?_setKey_self]

/-- C8: the sanitizer equals the spec's three-step pipeline (trim
surrounding whitespace and quotes; return unchanged if the result
starts with the canonical prefix or the local-pointer marker; else
collapse whitespace runs into single hyphens).  Both sides are total
Lean functions, so no input raises. -/
theorem claim_C8 (s : String) : sanitize_ref_string s = specSanitize s := rfl

theorem rewriteAtKey_ne (fu ti : List (String × String)) (k : String) (v : J)
    (h : ¬ k = refKey) : rewriteAtKey fu ti k v = rewritePureJ fu ti v := by
  simp [rewriteAtKey, h]

theorem rewritePureJ_str (fu ti : List (String × String)) (s : String) :
    rewritePureJ fu ti (.str s) = .str s := rfl

theorem rewritePureJ_arr (fu ti : List (String × String)) (a : JArr) :
    rewritePureJ fu ti (.arr a) = .arr (rewritePArr fu ti a) := rfl

theorem rewritePureJ_obj (fu ti : List (String × String)) (o : JObj) :
    rewritePureJ fu ti (.obj o) = .obj (rewritePObj fu ti o) := rfl

/-- C1 (amended): a reference-tagged string value inside a record
(outside the record's rewritten id/identifier slots) whose sanitized
form matches REF_RE with groups (kind, lid) resolves, regardless of
entry order, to the urn generated for the last entry registering the
pair kind/lid — provided the sanitized form does not hit the
prior-locator index, which takes priority. -/
theorem claim_C1 (u : Nat → String) (bo : JObj) (es : JArr) (i r : Nat)
    (eo ro : JObj) (er : J) (q : List PathElem) (s kind lid : String)
    (hwf : bundleWFb (.obj bo) = true) (hgs : GoodSupply u)
    (hent : dget? bo entryKey = some (.arr es))
    (hi : aget? es i = some (.obj eo))
    (hres : dget? eo resourceKey = some (.obj ro))
    (hq : headKeyOkB q = true)
    (hval : getPath (.obj ro) (q ++ [.key refKey]) = some (.str s))
    (hmatch : refMatch (sanitize_ref_string s) = some (kind, lid))
    (hnofu : allA (fun e => !(fuKeyOf e == some (sanitize_ref_string s))) es = true)
    (hr : aget? es r = some er)
    (hreg : regKeyOf er = some (kind ++ "/" ++ lid))
    (hlast : allA (fun e => !(regKeyOf e == some (kind ++ "/" ++ lid))) (dropA (r+1) es) = true) :
    ∃ bo' unk,
      transform_bundle u (.obj bo) = some (.obj bo', unk) ∧
      getPath (.obj bo')
        (.key entryKey :: .idx i :: .key resourceKey :: (q ++ [.key refKey])) =
        some (.str (to_urn (u (1 + r)))) :=
  resolved_ref_core u bo es i r eo ro er q s kind lid hwf hgs hent hi hres hq hval
    hmatch hnofu hr hreg hlast

/-- C2 (amended): in a well-formed bundle (in particular no entry
carries a pre-existing transient `_generated_uuid` key), after the
transform every entry's fullUrl is exactly the urn encoding of the
identifier generated for it during the assignment pass, and the
resource id is that identifier's raw form. -/
theorem claim_C2 (u : Nat → String) (bo : JObj) (es : JArr) (i : Nat) (eo ro : JObj)
    (hwf : bundleWFb (.obj bo) = true) (hgs : GoodSupply u)
    (hent : dget? bo entryKey = some (.arr es))
    (hi : aget? es i = some (.obj eo))
    (hres : dget? eo resourceKey = some (.obj ro)) :
    ∃ bo' unk,
      transform_bundle u (.obj bo) = some (.obj bo', unk) ∧
      getPath (.obj bo') [.key entryKey, .idx i, .key fullUrlKey] =
        some (.str (to_urn (u (1 + i)))) ∧
      getPath (.obj bo') [.key entryKey, .idx i, .key resourceKey, .key idKey] =
        some (.str (u (1 + i))) := by
  obtain ⟨unk1, htr⟩ := transform_char u bo es hent hwf hgs
  refine ⟨_, _, htr, ?_, ?_⟩
  all_goals {
    have hgen := entryWF_gen eo (entryWF_at bo es i (.obj eo) hwf hent hi)
    have hproc :
        aget? (procA (buildFu u 1 es []) (buildTis u 1 es []) (stashA u 1 es)) i =
          some (proc1 (buildFu u 1 es []) (buildTis u 1 es [])
            (stash1 u (1 + i) (.obj eo))) :=
      aget?_procA _ _ _ i _ (aget?_stashA u es 1 i _ hi)
    have hp1 := proc1_stash_eq (buildFu u 1 es []) (buildTis u 1 es []) u (1 + i) eo ro
      hgen hres
    have s1 : dget? (rewritePObj (buildFu u 1 es []) (buildTis u 1 es []) (bo4F u bo es))
        entryKey = some (.arr (rewritePArr (buildFu u 1 es []) (buildTis u 1 es [])
          (procA (buildFu u 1 es []) (buildTis u 1 es []) (stashA u 1 es)))) := by
      rw [dget?_rewritePObj, bo4F, dget?_setKey_self, Option.map_some',
        rewriteAtKey_ne _ _ _ _ (by decide), rewritePureJ_arr]
    simp only [getPath, childAt, s1, Option.some_bind]
    rw [aget?_rewritePArr, hproc, Option.map_some', hp1, rewritePureJ_obj]
    simp only [Option.some_bind, childAt]
    rw [hp1] at hproc
    first
    | {
        -- fullUrl component
        have s3 : dget? (rewritePObj (buildFu u 1 es []) (buildTis u 1 es [])
            (delKey (setKey (setKey (setKey eo genKey (.str (u (1 + i)))) fullUrlKey
              (.str (to_urn (u (1 + i))))) resourceKey
              (.obj (rewritePObj (buildFu u 1 es []) (buildTis u 1 es [])
                (add_identifier (setKey ro idKey (.str (u (1 + i))))
                  (to_urn (u (1 + i))))))) genKey)) fullUrlKey =
            some (.str (to_urn (u (1 + i)))) := by
          rw [dget?_rewritePObj, dget?_delKey_ne _ _ _ (by decide),
            dget?_setKey_ne _ _ _ _ (by decide), dget?_setKey_self, Option.map_some',
            rewriteAtKey_ne _ _ _ _ (by decide), rewritePureJ_str]
        rw [s3]
        simp [getPath]
      }
    | {
        -- resource id component
        have s4 : dget? (rewritePObj (buildFu u 1 es []) (buildTis u 1 es [])
            (delKey (setKey (setKey (setKey eo genKey (.str (u (1 + i)))) fullUrlKey
              (.str (to_urn (u (1 + i))))) resourceKey
              (.obj (rewritePObj (buildFu u 1 es []) (buildTis u 1 es [])
                (add_identifier (setKey ro idKey (.str (u (1 + i))))
                  (to_urn (u (1 + i))))))) genKey)) resourceKey =
            some (.obj (rewritePObj (buildFu u 1 es []) (buildTis u 1 es [])
              (rewritePObj (buildFu u 1 es []) (buildTis u 1 es [])
                (add_identifier (setKey ro idKey (.str (u (1 + i))))
                  (to_urn (u (1 + i))))))) := by
          rw [dget?_rewritePObj, dget?_delKey_ne _ _ _ (by decide), dget?_setKey_self,
            Option.map_some', rewriteAtKey_ne _ _ _ _ (by decide), rewritePureJ_obj]
        rw [s4]
        simp only [Option.some_bind, getPath, childAt]
        have s5 : dget? (add_identifier (setKey ro idKey (.str (u (1 + i))))
            (to_urn (u (1 + i)))) idKey = some (.str (u (1 + i))) := by
          rw [dget?_add_identifier_ne _ _ _ (by decide), dget?_setKey_self]
        rw [dget?_rewritePObj, dget?_rewritePObj, s5, Option.map_some', Option.map_some',
          rewriteAtKey_ne _ _ _ _ (by decide), rewriteAtKey_ne _ _ _ _ (by decide),
          rewritePureJ_str, rewritePureJ_str]
        simp [getPath]
      }
  }

/-- C3 (amended): for a reference-tagged string whose sanitized form
REF_RE accepts with groups (kind, lid) — in particular an absolute base
of exactly scheme://authority/segment/ — and which misses the
prior-locator index: if some entry is the last to register kind/lid the
value resolves to that entry's new urn, and if no entry registers the
pair the value is left unchanged. -/
theorem claim_C3 (u : Nat → String) (bo : JObj) (es : JArr) (i : Nat)
    (eo ro : JObj) (q : List PathElem) (s kind lid : String)
    (hwf : bundleWFb (.obj bo) = true) (hgs : GoodSupply u)
    (hent : dget? bo entryKey = some (.arr es))
    (hi : aget? es i = some (.obj eo))
    (hres : dget? eo resourceKey = some (.obj ro))
    (hq : headKeyOkB q = true)
    (hval : getPath (.obj ro) (q ++ [.key refKey]) = some (.str s))
    (hmatch : refMatch (sanitize_ref_string s) = some (kind, lid))
    (hnofu : allA (fun e => !(fuKeyOf e == some (sanitize_ref_string s))) es = true) :
    (∀ (r : Nat) (er : J), aget? es r = some er →
      regKeyOf er = some (kind ++ "/" ++ lid) →
      allA (fun e => !(regKeyOf e == some (kind ++ "/" ++ lid))) (dropA (r+1) es) = true →
      ∃ bo' unk,
        transform_bundle u (.obj bo) = some (.obj bo', unk) ∧
        getPath (.obj bo')
          (.key entryKey :: .idx i :: .key resourceKey :: (q ++ [.key refKey])) =
          some (.str (to_urn (u (1 + r))))) ∧
    (allA (fun e => !(regKeyOf e == some (kind ++ "/" ++ lid))) es = true →
      ∃ bo' unk,
        transform_bundle u (.obj bo) = some (.obj bo', unk) ∧
        getPath (.obj bo')
          (.key entryKey :: .idx i :: .key resourceKey :: (q ++ [.key refKey])) =
          some (.str s)) := by
  constructor
  · intro r er hr hreg hlast
    exact resolved_ref_core u bo es i r eo ro er q s kind lid hwf hgs hent hi hres hq
      hval hmatch hnofu hr hreg hlast
  · intro hnoreg
    obtain ⟨bo', unk, h1, h2, _⟩ := unresolved_ref_core u bo es i eo ro q s kind lid hwf
      hgs hent hi hres hq hval hmatch hnofu hnoreg
    exact ⟨bo', unk, h1, h2⟩

/-- C4 (amended): a reference-tagged value beginning with the canonical
urn prefix or the local-pointer marker that is a fixed point of the
sanitizer's trimming (no surrounding whitespace, no enclosing quote
characters) passes through both rewriting passes byte for byte; without
that proviso exact pass-through fails, since every pass the value
traverses trims it again. -/
theorem claim_C4 (u : Nat → String) (bo : JObj) (es : JArr) (i : Nat)
    (eo ro : JObj) (q : List PathElem) (v : String)
    (hwf : bundleWFb (.obj bo) = true) (hgs : GoodSupply u)
    (hent : dget? bo entryKey = some (.arr es))
    (hi : aget? es i = some (.obj eo))
    (hres : dget? eo resourceKey = some (.obj ro))
    (hq : headKeyOkB q = true)
    (hval : getPath (.obj ro) (q ++ [.key refKey]) = some (.str v))
    (hpre : (pyStartsWith v URN_HEAD || pyStartsWith v ("#")) = true)
    (htrim : pyTrim v = v) :
    ∃ bo' unk,
      transform_bundle u (.obj bo) = some (.obj bo', unk) ∧
      getPath (.obj bo')
        (.key entryKey :: .idx i :: .key resourceKey :: (q ++ [.key refKey])) =
        some (.str v) := by
  obtain ⟨unk1, htr⟩ := transform_char u bo es hent hwf hgs
  refine ⟨_, _, htr, ?_⟩
  have hsan : sanitize_ref_string v = v := by
    simp only [sanitize_ref_string, htrim, hpre, if_true]
  have hmap : map_reference v (buildFu u 1 es []) (buildTis u 1 es []) = some v := by
    simp only [map_reference, hsan, hpre, if_true]
  have hrv : rewriteVal (buildFu u 1 es []) (buildTis u 1 es []) v = v := by
    unfold rewriteVal
    rw [hmap]
  have hb4 := bo4F_path u bo es i eo ro q v hi
    (entryWF_gen eo (entryWF_at bo es i (.obj eo) hwf hent hi))
    hres hq hval
  rw [hrv] at hb4
  have hpath : (PathElem.key entryKey :: PathElem.idx i :: PathElem.key resourceKey ::
      (q ++ [PathElem.key refKey])) =
      ((PathElem.key entryKey :: PathElem.idx i :: PathElem.key resourceKey :: q)
        ++ [PathElem.key refKey]) := by
    simp
  rw [hpath] at hb4 ⊢
  have hfinal := getPath_rewrite (buildFu u 1 es []) (buildTis u 1 es []) v
    (PathElem.key entryKey :: PathElem.idx i :: PathElem.key resourceKey :: q)
    (.obj (bo4F u bo es)) hb4
  rw [hrv] at hfinal
  simpa [rewritePureJ] using hfinal

/-- C5: a reference of the literal form Kind/unknown-id whose pair no
record registers and which no prior locator matches is left verbatim in
the output, its raw string lands in the unresolved set, and the
transform still completes (the unresolved handling neither aborts nor
mutates anything else). -/
theorem claim_C5 (u : Nat → String) (bo : JObj) (es : JArr) (i : Nat)
    (eo ro : JObj) (q : List PathElem) (kind lid : String)
    (hwf : bundleWFb (.obj bo) = true) (hgs : GoodSupply u)
    (hent : dget? bo entryKey = some (.arr es))
    (hi : aget? es i = some (.obj eo))
    (hres : dget? eo resourceKey = some (.obj ro))
    (hq : headKeyOkB q = true)
    (hk : kindOkL kind.data = true) (hl : idOkL lid.data = true)
    (hval : getPath (.obj ro) (q ++ [.key refKey]) = some (.str (kind ++ "/" ++ lid)))
    (hnofu : allA (fun e => !(fuKeyOf e == some (kind ++ "/" ++ lid))) es = true)
    (hnoreg : allA (fun e => !(regKeyOf e == some (kind ++ "/" ++ lid))) es = true) :
    ∃ bo' unk,
      transform_bundle u (.obj bo) = some (.obj bo', unk) ∧
      getPath (.obj bo')
        (.key entryKey :: .idx i :: .key resourceKey :: (q ++ [.key refKey])) =
        some (.str (kind ++ "/" ++ lid)) ∧
      (kind ++ "/" ++ lid) ∈ unk := by
  have hsan : sanitize_ref_string (kind ++ "/" ++ lid) = kind ++ "/" ++ lid :=
    sanitize_of_clean _ (concat_clean kind lid hk hl)
  have hmatch : refMatch (sanitize_ref_string (kind ++ "/" ++ lid)) = some (kind, lid) := by
    rw [hsan]
    exact refMatch_of_concat kind lid hk hl
  exact unresolved_ref_core u bo es i eo ro q (kind ++ "/" ++ lid) kind lid hwf hgs hent
    hi hres hq hval hmatch (by rw [hsan]; exact hnofu) hnoreg

/-- C10: whenever transform_bundle returns, no entry of the output
carries the transient `_generated_uuid` key — pass 2 deletes it from
every entry unconditionally, also when it was present in the input. -/
theorem claim_C10 (u : Nat → String) (b : J) (out : J) (unk : List String) (i : Nat)
    (eo' : JObj)
    (htr : transform_bundle u b = some (out, unk))
    (hgp : getPath out [.key entryKey, .idx i] = some (.obj eo')) :
    dget? eo' genKey = none := by
  simp only [transform_bundle, Option.bind_eq_bind, Option.bind_eq_some] at htr
  obtain ⟨bo, hbo, htr⟩ := htr
  obtain ⟨ent, hent, htr⟩ := htr
  obtain ⟨c, hc, htr⟩ := htr
  obtain ⟨p, hp, hfin⟩ := htr
  obtain ⟨cf, ct, cts, ces, cn⟩ := c
  obtain ⟨p1, p2, p3⟩ := p
  simp only [Option.some.injEq, Prod.mk.injEq] at hfin
  obtain ⟨hout, _⟩ := hfin
  subst hout
  rw [rwObj_fst] at hgp
  cases ent with
  | some l =>
    simp only at hgp hp
    simp only [getPath, childAt, dget?_rewritePObj, dget?_setKey_self, Option.map_some',
      rewriteAtKey_ne _ _ _ _ (by decide : ¬ entryKey = refKey), rewritePureJ_arr,
      Option.some_bind, aget?_rewritePArr, Option.bind_eq_some] at hgp
    obtain ⟨w, hw, hgpe⟩ := hgp
    simp only [Option.map_eq_some'] at hw
    obtain ⟨e0, he0, hrw⟩ := hw
    obtain ⟨eo0, heq, hgen0⟩ := processEntries_no_gen u cf cts ces cn [] p1 p2 p3 hp i e0 he0
    subst heq
    rw [rewritePureJ_obj] at hrw
    subst hrw
    simp only [getPath, Option.some.injEq, J.obj.injEq] at hgpe
    subst hgpe
    rw [dget?_rewritePObj, hgen0]
    rfl
  | none =>
    simp only at hgp hent
    rcases entriesOf_none_cases _ hent with hcase | hcase | hcase <;>
      simp only [getPath, childAt, dget?_rewritePObj, hcase, Option.map_some',
        Option.map_none', Option.none_bind, Option.some_bind,
        rewriteAtKey_ne _ _ _ _ (by decide : ¬ entryKey = refKey), rewritePureJ_str,
        rewritePureJ_obj] at hgp
    · exact Option.noConfusion hgp
    · exact Option.noConfusion hgp
    · exact Option.noConfusion hgp

/-- C9: the recursive rewriter modifies only string values stored under
the reference key: erasing exactly those positions in input and output
yields identical trees, so every other key, value, and sequence slot is
preserved even when a non-reference string looks like a reference. -/
theorem claim_C9 (fu ti : List (String × String)) (j : J) (unk : List String) :
    eraseRefs ((rewrite_references fu ti j unk).1) = eraseRefs j := by
  rw [rw_fst]
  exact eraseRefs_rewritePure fu ti j

theorem wU_good : GoodSupply wU := by
  intro n
  constructor
  · show ("w" : String) ≠ ""
    decide
  · show ∀ c ∈ ("w" : String).data, pyIsSpace c = false ∧ quoteCh c = false
    decide

/-! ## Counterexamples to the claims as stated -/

/-- C1 counterexample: entry 1 registers Patient/123, yet the reference
Patient/123 in entry 0 resolves to entry 0's urn (its fullUrl
"Patient/123" was indexed by the prior-locator table, which is consulted
first), not to the registrant's urn. -/
theorem claim_C1_cex :
    (transform_bundle cexU (.obj cb1o)).bind
        (fun p => getPath p.1 [.key entryKey, .idx 0, .key resourceKey,
          .key subjKey, .key refKey]) =
      some (.str (to_urn (cexU 1))) ∧
    aget? cb1es 1 = some patEntry ∧
    regKeyOf patEntry = some ("Patient" ++ "/" ++ "123") ∧
    to_urn (cexU (1 + 1)) ≠ to_urn (cexU 1) :=
  ⟨rfl, rfl, rfl, by decide⟩

/-- C2 counterexample: an entry arriving with a pre-existing
_generated_uuid key keeps that value: its output fullUrl is
urn:uuid:EVIL, not the urn of any freshly generated identifier. -/
theorem claim_C2_cex :
    (transform_bundle cexU (.obj cb2o)).bind
        (fun p => getPath p.1 [.key entryKey, .idx 0, .key fullUrlKey]) =
      some (.str ("urn:uuid:EVIL")) ∧
    ("urn:uuid:EVIL" : String) ≠ to_urn (cexU (1 + 0)) :=
  ⟨rfl, by decide⟩

/-- C3 counterexample: an absolute reference whose base has two path
segments before Kind/id is not matched by REF_RE, so it is left
verbatim and reported unresolved even though entry 1 registers
Patient/123. -/
theorem claim_C3_cex :
    refMatch (sanitize_ref_string ("http://host/a/b/Patient/123")) = none ∧
    (transform_bundle cexU (.obj cb3o)).bind
        (fun p => getPath p.1 [.key entryKey, .idx 0, .key resourceKey,
          .key subjKey, .key refKey]) =
      some (.str ("http://host/a/b/Patient/123")) ∧
    ("http://host/a/b/Patient/123" : String) ∈ cb3unk ∧
    aget? cb3es 1 = some patEntry ∧
    regKeyOf patEntry = some ("Patient" ++ "/" ++ "123") :=
  ⟨rfl, rfl, by decide, rfl, rfl⟩

/-- C4 counterexample: a reference carrying the canonical prefix but
with a trailing blank is not passed through byte for byte: the
surrounding whitespace is trimmed. -/
theorem claim_C4_cex :
    (transform_bundle cexU (.obj cb4o)).bind
        (fun p => getPath p.1 [.key entryKey, .idx 0, .key resourceKey,
          .key subjKey, .key refKey]) =
      some (.str ("urn:uuid:abc")) ∧
    ("urn:uuid:abc" : String) ≠ ("urn:uuid:abc ") :=
  ⟨rfl, by decide⟩

/-! ## Witnesses -/

theorem claim_C1_witness :
    ∃ bo' unk,
      transform_bundle wU (.obj wB1o) = some (.obj bo', unk) ∧
      getPath (.obj bo')
        (.key entryKey :: .idx 0 :: .key resourceKey ::
          ([PathElem.key subjKey] ++ [.key refKey])) =
        some (.str (to_urn (wU (1 + 1)))) :=
  claim_C1 wU wB1o wEs1 0 1 (obsEntry ("Patient/123")) (obsRes ("Patient/123"))
    patEntry [PathElem.key subjKey] ("Patient/123") ("Patient") ("123")
    rfl wU_good rfl rfl rfl rfl rfl rfl rfl rfl rfl rfl

theorem claim_C2_witness :
    ∃ bo' unk,
      transform_bundle wU (.obj wB2o) = some (.obj bo', unk) ∧
      getPath (.obj bo') [.key entryKey, .idx 0, .key fullUrlKey] =
        some (.str (to_urn (wU (1 + 0)))) ∧
      getPath (.obj bo') [.key entryKey, .idx 0, .key resourceKey, .key idKey] =
        some (.str (wU (1 + 0))) :=
  claim_C2 wU wB2o wEsP 0 (mkResO ("Patient") ("123") .nil) patRes
    rfl wU_good rfl rfl rfl

theorem claim_C3_witness :
    (∀ (r : Nat) (er : J), aget? wEs1 r = some er →
      regKeyOf er = some ("Patient" ++ "/" ++ "123") →
      allA (fun e => !(regKeyOf e == some ("Patient" ++ "/" ++ "123")))
        (dropA (r+1) wEs1) = true →
      ∃ bo' unk,
        transform_bundle wU (.obj wB1o) = some (.obj bo', unk) ∧
        getPath (.obj bo')
          (.key entryKey :: .idx 0 :: .key resourceKey ::
            ([PathElem.key subjKey] ++ [.key refKey])) =
          some (.str (to_urn (wU (1 + r))))) ∧
    (allA (fun e => !(regKeyOf e == some ("Patient" ++ "/" ++ "123"))) wEs1 = true →
      ∃ bo' unk,
        transform_bundle wU (.obj wB1o) = some (.obj bo', unk) ∧
        getPath (.obj bo')
          (.key entryKey :: .idx 0 :: .key resourceKey ::
            ([PathElem.key subjKey] ++ [.key refKey])) =
          some (.str ("Patient/123"))) :=
  claim_C3 wU wB1o wEs1 0 (obsEntry ("Patient/123")) (obsRes ("Patient/123"))
    [PathElem.key subjKey] ("Patient/123") ("Patient") ("123")
    rfl wU_good rfl rfl rfl rfl rfl rfl rfl

theorem claim_C4_witness :
    ∃ bo' unk,
      transform_bundle wU (.obj wB4o) = some (.obj bo', unk) ∧
      getPath (.obj bo')
        (.key entryKey :: .idx 0 :: .key resourceKey ::
          ([PathElem.key subjKey] ++ [.key refKey])) =
        some (.str ("#frag")) :=
  claim_C4 wU wB4o wEs4 0 (obsEntry ("#frag")) (obsRes ("#frag"))
    [PathElem.key subjKey] ("#frag")
    rfl wU_good rfl rfl rfl rfl rfl rfl rfl

theorem claim_C5_witness :
    ∃ bo' unk,
      transform_bundle wU (.obj wB5o) = some (.obj bo', unk) ∧
      getPath (.obj bo')
        (.key entryKey :: .idx 0 :: .key resourceKey ::
          ([PathElem.key subjKey] ++ [.key refKey])) =
        some (.str ("Patient" ++ "/" ++ "999")) ∧
      ("Patient" ++ "/" ++ "999") ∈ unk :=
  claim_C5 wU wB5o wEs5 0 (obsEntry ("Patient/999")) (obsRes ("Patient/999"))
    [PathElem.key subjKey] ("Patient") ("999")
    rfl wU_good rfl rfl rfl rfl rfl rfl rfl rfl rfl

theorem claim_C10_witness : dget? wEo10 genKey = none :=
  claim_C10 wU (.obj wB10o) wOut10 wUnk10 0 wEo10 rfl rfl

end MedCalcEHR
